import Mathlib

/-!
Verification of the Escoba de 15 rules engine (marianogappa/escoba).

This file shallowly embeds the Go rules engine: the card/deck model
(deck.go), the combination search and the throw-card action
(actions.go), and the game state machine (GameState: New, startNewSet,
startNewRound, RunAction, scoreSet, calculateSetenta,
CalculatePossibleActions), plus the JSON serialization used for actions
and game-state snapshots.  Randomness (rand.Shuffle) is modelled by
passing the shuffled deck as an explicit parameter; a valid deck is any
permutation of the 40 Spanish cards.  Go maps keyed by the two player
ids 0 and 1 are modelled as functions out of Fin 2.
-/

namespace Escoba

/-- Suit constant "oro" (deck.go). -/
def ORO : String := "oro"

/-- Suit constant "copa" (deck.go). -/
def COPA : String := "copa"

/-- Suit constant "espada" (deck.go). -/
def ESPADA : String := "espada"

/-- Suit constant "basto" (deck.go). -/
def BASTO : String := "basto"

/-- Card (deck.go): a suit string and a number 1..12 (8 and 9 absent in a
real deck). -/
structure Card where
  Suit : String
  Number : Int
deriving DecidableEq, Repr

/-- Card.GetEscobaValue (deck.go): numbers 1-7 count as themselves; 10, 11,
12 count as 8, 9, 10. -/
def Card.GetEscobaValue (c : Card) : Int :=
  if c.Number ≤ 7 then c.Number else c.Number - 2

/-- makeSpanishCards (deck.go) before the shuffle: each suit in order
oro, copa, espada, basto paired with numbers 1..7, 10, 11, 12.  The
rand.Shuffle step is modelled by quantifying over permutations of this
list (see ValidDeck). -/
def makeSpanishCards : List Card :=
  [ORO, COPA, ESPADA, BASTO].flatMap (fun suit =>
    [1, 2, 3, 4, 5, 6, 7, 10, 11, 12].map (fun n => Card.mk suit n))

/-- A deck as handed to the engine: any permutation of the 40 cards
(models newDeck, whose only caller-visible contract is a shuffled full
Spanish deck). -/
def ValidDeck (d : List Card) : Prop := d.Perm makeSpanishCards

/-- A card value that can actually occur: membership in the 40-card deck. -/
def ValidCard (c : Card) : Prop := c ∈ makeSpanishCards

/-- GameState.sumCards (part_003): sum of escoba values of a list of cards. -/
def sumCards (cards : List Card) : Int :=
  (cards.map Card.GetEscobaValue).sum

/-- findCombinationsDFS (actions.go).  The Go function loops over indices
i = startIndex.. and for each i includes tableCards[i] and recurses from
i+1; that enumeration is exactly: for the head card, first all
combinations containing it, then all combinations not containing it.
The index-suffix recursion is rendered as structural recursion on the
list suffix. -/
def findCombinationsDFS (targetSum : Int) (tableCards : List Card)
    (currentCombination : List Card) : List (List Card) :=
  if targetSum = 0 then [currentCombination]
  else if targetSum < 0 then []
  else
    match tableCards with
    | [] => []
    | card :: rest =>
        findCombinationsDFS (targetSum - card.GetEscobaValue) rest
          (currentCombination ++ [card]) ++
        findCombinationsDFS targetSum rest currentCombination

/-- findAllValidCombinations (actions.go): all combinations of table cards
summing to 15 minus the thrown card's value; empty when the thrown value
already reaches 15. -/
def findAllValidCombinations (thrownCard : Card) (tableCards : List Card) :
    List (List Card) :=
  let targetSum : Int := 15
  let thrownValue := thrownCard.GetEscobaValue
  if targetSum ≤ thrownValue then []
  else findCombinationsDFS (targetSum - thrownValue) tableCards []

-- Characterization of the DFS: with positive card values it returns
-- exactly the sublists of the table summing to the target, each
-- prefixed by the accumulated combination.

theorem findCombinationsDFS_mem (targetSum : Int) (tableCards : List Card)
    (cur : List Card) (hpos : ∀ c ∈ tableCards, 1 ≤ c.GetEscobaValue) (l : List Card) :
    l ∈ findCombinationsDFS targetSum tableCards cur ↔
      ∃ s, s.Sublist tableCards ∧ sumCards s = targetSum ∧ l = cur ++ s := by
  induction tableCards generalizing targetSum cur with
  | nil =>
      unfold findCombinationsDFS
      by_cases h0 : targetSum = 0
      · subst h0
        simp [sumCards]
      · simp only [if_neg h0]
        constructor
        · intro h
          split at h <;> simp_all
        · rintro ⟨s, hs, hsum, rfl⟩
          rw [List.sublist_nil] at hs
          subst hs
          simp [sumCards] at hsum
          exact absurd hsum.symm h0
  | cons card rest ih =>
      have hposr : ∀ c ∈ rest, 1 ≤ c.GetEscobaValue := fun c hc => hpos c (.tail _ hc)
      have hcard : 1 ≤ card.GetEscobaValue := hpos card (.head _)
      unfold findCombinationsDFS
      by_cases h0 : targetSum = 0
      · subst h0
        rw [if_pos rfl, List.mem_singleton]
        constructor
        · rintro rfl
          exact ⟨[], List.nil_sublist _, by simp [sumCards], by simp⟩
        · rintro ⟨s, hs, hsum, rfl⟩
          have : s = [] := by
            by_contra hne
            have h1 : 1 ≤ sumCards s := by
              match s, hne with
              | c :: s', _ =>
                have hc : c ∈ card :: rest := hs.subset (.head _)
                have hrest : 0 ≤ sumCards s' := by
                  have : ∀ x ∈ s', 1 ≤ x.GetEscobaValue := fun x hx =>
                    hpos x (hs.subset (.tail _ hx))
                  have : ∀ x ∈ s'.map Card.GetEscobaValue, 0 ≤ x := by
                    intro x hx
                    obtain ⟨y, hy, rfl⟩ := List.mem_map.mp hx
                    linarith [this y hy]
                  exact List.sum_nonneg this
                have := hpos c hc
                simp only [sumCards, List.map_cons, List.sum_cons]
                have hs'' : sumCards s' = (s'.map Card.GetEscobaValue).sum := rfl
                linarith [hs'']
            omega
          subst this
          simp
      · by_cases hneg : targetSum < 0
        · simp only [if_neg h0, if_pos hneg]
          constructor
          · intro h
            exact absurd h (List.not_mem_nil l)
          · rintro ⟨s, hs, hsum, rfl⟩
            have h1 : 0 ≤ sumCards s := by
              have : ∀ x ∈ s.map Card.GetEscobaValue, 0 ≤ x := by
                intro x hx
                obtain ⟨y, hy, rfl⟩ := List.mem_map.mp hx
                linarith [hpos y (hs.subset hy)]
              exact List.sum_nonneg this
            omega
        · simp only [if_neg h0, if_neg hneg, List.mem_append]
          rw [ih _ _ hposr, ih _ _ hposr]
          constructor
          · rintro (⟨s, hs, hsum, rfl⟩ | ⟨s, hs, hsum, rfl⟩)
            · exact ⟨card :: s, List.Sublist.cons₂ _ hs, by simp [sumCards] at hsum ⊢; omega, by simp⟩
            · exact ⟨s, hs.cons _, hsum, rfl⟩
          · rintro ⟨s, hs, hsum, rfl⟩
            rw [List.sublist_cons_iff] at hs
            rcases hs with hs' | ⟨r, rfl, hr⟩
            · exact Or.inr ⟨s, hs', hsum, rfl⟩
            · exact Or.inl ⟨r, hr, by simp [sumCards] at hsum ⊢; omega, by simp⟩


-- ACTION MODEL (actions.go)

/-- THROW_CARD action name constant (actions.go). -/
def THROW_CARD : String := "throw_card"

/-- ActionThrowCard (actions.go): the embedded act struct contributes the
Name field; the action throws ThrownCard and declares CapturedTableCards.
The Go field named Card is rendered ThrownCard because a Lean structure
field cannot share the name of its own type. -/
structure ActionThrowCard where
  Name : String
  ThrownCard : Card
  CapturedTableCards : List Card
deriving DecidableEq, Repr

/-- newActionThrowCard (actions.go). -/
def newActionThrowCard (card : Card) (capturedTableCards : List Card) :
    ActionThrowCard :=
  ⟨THROW_CARD, card, capturedTableCards⟩

/-- The table-membership scan in ActionThrowCard.IsPossible (actions.go):
each captured card must match a table card, consumed once (the Go loop
deletes the first matching entry of a copy of the table). -/
def consumeFromTable (captured : List Card) (tableCopy : List Card) : Bool :=
  match captured with
  | [] => true
  | c :: rest =>
      if c ∈ tableCopy then consumeFromTable rest (tableCopy.erase c)
      else false

theorem cons_subperm_iff_mem_erase {α : Type} [DecidableEq α] (c : α)
    (rest t : List α) : List.Subperm (c :: rest) t ↔ c ∈ t ∧ List.Subperm rest (t.erase c) := by
  constructor
  · intro h
    refine ⟨h.subset (.head _), ?_⟩
    have h2 := h.erase c
    rwa [List.erase_cons_head] at h2
  · rintro ⟨hc, l, hp, hs⟩
    exact List.Subperm.trans ⟨c :: l, hp.cons c, hs.cons₂ c⟩
      ((List.perm_cons_erase hc).symm.subperm)

/-- The scan succeeds exactly when the captured cards form a sub-multiset
of the table (each declared card consumes a distinct table entry). -/
theorem consumeFromTable_eq_subperm (captured t : List Card) :
    consumeFromTable captured t = true ↔ List.Subperm captured t := by
  induction captured generalizing t with
  | nil => simp [consumeFromTable, List.nil_subperm]
  | cons c rest ih =>
      rw [consumeFromTable, cons_subperm_iff_mem_erase]
      by_cases hc : c ∈ t
      · rw [if_pos hc, ih]
        simp [hc]
      · rw [if_neg hc]
        simp [hc]

-- JSON MODEL.  Go serializes actions and game-state snapshots with
-- encoding/json; json.RawMessage fields hold already-serialized values.
-- A JSON document is modelled as a tree; Go byte slices of JSON are
-- modelled as these trees.

/-- A JSON value (models the encoding/json wire format). -/
inductive Json where
  | jnum : Int → Json
  | jstr : String → Json
  | jbool : Bool → Json
  | jnull : Json
  | jarr : List Json → Json
  | jobj : List (String × Json) → Json

/-- Marshalling of a Card: fields in struct order with their json tags
(deck.go: suit, number). -/
def encodeCard (c : Card) : Json :=
  .jobj [("suit", .jstr c.Suit), ("number", .jnum c.Number)]

/-- Unmarshalling of a Card from a JSON object. -/
def decodeCard (j : Json) : Except String Card :=
  match j with
  | .jobj fields =>
      match fields.lookup "suit", fields.lookup "number" with
      | some (.jstr s), some (.jnum n) => .ok ⟨s, n⟩
      | _, _ => .error "bad card"
  | _ => .error "bad card"

/-- Marshalling of ActionThrowCard (actions.go): the embedded act struct
contributes "name" first, then "card" and "capturedTableCards". -/
def encodeAction (a : ActionThrowCard) : Json :=
  .jobj [("name", .jstr a.Name), ("card", encodeCard a.ThrownCard),
         ("capturedTableCards", .jarr (a.CapturedTableCards.map encodeCard))]

/-- SerializeAction (part_003) produces the JSON bytes of an action. -/
def SerializeAction (a : ActionThrowCard) : Json := encodeAction a

/-- Unmarshalling of a list of cards. -/
def decodeCardList (js : List Json) : Except String (List Card) :=
  match js with
  | [] => .ok []
  | j :: rest => do
      let c ← decodeCard j
      let cs ← decodeCardList rest
      .ok (c :: cs)

/-- DeserializeAction (part_003): reads the name discriminator, dispatches
on THROW_CARD (the only action kind), then unmarshals the full action. -/
def DeserializeAction (j : Json) : Except String ActionThrowCard :=
  match j with
  | .jobj fields =>
      match fields.lookup "name" with
      | some (.jstr name) =>
          if name = THROW_CARD then
            match fields.lookup "card", fields.lookup "capturedTableCards" with
            | some jc, some (.jarr jcs) => do
                let c ← decodeCard jc
                let cs ← decodeCardList jcs
                .ok ⟨name, c, cs⟩
            | _, _ => .error "bad action"
          else .error ("unknown action type " ++ name)
      | _ => .error "bad action"
  | _ => .error "bad action"

-- GAME STATE (part_003)

/-- SetResult (part_003): scoring results of a completed set.  The Go
maps keyed by player id are functions out of Fin 2. -/
structure SetResult where
  CardCounts : Fin 2 → Nat
  OroCardCounts : Fin 2 → Nat
  HasSieteDeOro : Fin 2 → Bool
  SetentaScores : Fin 2 → Int
  PointsAwarded : Fin 2 → Nat
  EscobasThisSet : Fin 2 → Nat

/-- GameState (part_003).  Hands collapses the Go *Hand wrapper to the
card list; PossibleActions and Actions hold serialized actions
(json.RawMessage in Go) as JSON trees; the unexported deck field is the
undealt remainder of the current set's deck. -/
structure GameState where
  RoundTurnPlayerID : Fin 2
  RoundNumber : Nat
  TurnPlayerID : Fin 2
  Hands : Fin 2 → List Card
  TableCards : List Card
  Piles : Fin 2 → List Card
  Escobas : Fin 2 → Nat
  Scores : Fin 2 → Nat
  PossibleActions : List Json
  RoundFinished : Bool
  SetFinished : Bool
  IsEnded : Bool
  WinnerPlayerID : Int
  Actions : List Json
  ActionOwnerPlayerIDs : List (Fin 2)
  RoundJustStarted : Bool
  LastSetResults : Option SetResult
  LastCapturerPlayerID : Fin 2
  SetJustStarted : Bool
  deck : List Card

/-- GameState.OpponentOf (part_003). -/
def opponentOf (playerID : Fin 2) : Fin 2 :=
  if playerID = 0 then 1 else 0

/-- ActionThrowCard.IsPossible (actions.go): the hand must contain the
card; an empty declared capture is legal only when no combination
exists; a non-empty one must sum to 15 minus the thrown value and be
present on the table with multiplicity. -/
def ActionThrowCard.IsPossible (a : ActionThrowCard) (g : GameState) : Bool :=
  if a.ThrownCard ∉ g.Hands g.TurnPlayerID then false
  else if a.CapturedTableCards.isEmpty then
    (findAllValidCombinations a.ThrownCard g.TableCards).isEmpty
  else
    let expectedSum := 15 - a.ThrownCard.GetEscobaValue
    let actualSum := sumCards a.CapturedTableCards
    if actualSum ≠ expectedSum then false
    else consumeFromTable a.CapturedTableCards g.TableCards

/-- GameState.removeCardsFromTable (actions.go): Go builds a hash set of
the table cards and deletes the removed ones; set construction
deduplicates and iteration order is unspecified, so the embedding fixes
the deterministic representative that keeps first occurrences in table
order (the engine treats the table as unordered). -/
def removeCardsFromTable (tableCards : List Card) (toRemove : List Card) :
    List Card :=
  tableCards.dedup.filter (fun c => c ∉ toRemove)

/-- ActionThrowCard.Run (actions.go).  The Go method mutates the state
and always returns a nil error; the embedding returns the new state
(RunAction accounts for the never-failing error). -/
def ActionThrowCard.Run (a : ActionThrowCard) (g : GameState) : GameState :=
  let playerID := g.TurnPlayerID
  let newHands := Function.update g.Hands playerID ((g.Hands playerID).erase a.ThrownCard)
  let g1 := { g with Hands := newHands }
  if 0 < a.CapturedTableCards.length then
    let cardsToCapture := a.CapturedTableCards ++ [a.ThrownCard]
    let newPiles := Function.update g1.Piles playerID (g1.Piles playerID ++ cardsToCapture)
    let g2 := { g1 with Piles := newPiles }
    let g3 := { g2 with TableCards := removeCardsFromTable g2.TableCards cardsToCapture }
    let g4 := { g3 with LastCapturerPlayerID := playerID }
    if g4.TableCards.isEmpty && !a.CapturedTableCards.isEmpty then
      { g4 with Escobas := Function.update g4.Escobas playerID (g4.Escobas playerID + 1) }
    else g4
  else
    { g1 with TableCards := g1.TableCards ++ [a.ThrownCard] }

/-- GameState.CalculatePossibleActions (part_003).  Go makes one pass over
the hand appending a capture action per combination and raising a flag
when any combination exists, then appends bare discards per hand card
only if the flag stayed low; the flag is low exactly when the appended
capture-action list is empty. -/
def CalculatePossibleActions (g : GameState) : List ActionThrowCard :=
  let captureActions := (g.Hands g.TurnPlayerID).flatMap (fun card =>
    (findAllValidCombinations card g.TableCards).map (fun combination =>
      newActionThrowCard card combination))
  if captureActions.isEmpty then
    (g.Hands g.TurnPlayerID).map (fun card => newActionThrowCard card [])
  else captureActions

/-- The serialized list of possible actions (part_003, underscore helper). -/
def serializeActions (actions : List ActionThrowCard) : List Json :=
  actions.map encodeAction

/-- Replacement of the value stored at a key of an association list
(models writing to an existing Go map key). -/
def replaceValue : List (String × Int) → String → Int → List (String × Int)
  | [], _, _ => []
  | (k, x) :: rest, key, v =>
      if k = key then (k, v) :: rest else (k, x) :: replaceValue rest key v

/-- One step of the pile scan in GameState.calculateSetenta (part_003):
for an eligible card (value at most 7), record its value for its suit
when the suit is new or the value improves the recorded one.  The Go
suitBest/suitHasCard map pair is an association list with unique keys. -/
def setentaStep (best : List (String × Int)) (c : Card) : List (String × Int) :=
  let v := c.GetEscobaValue
  if v ≤ 7 then
    match best.lookup c.Suit with
    | none => (c.Suit, v) :: best
    | some b => if b < v then replaceValue best c.Suit v else best
  else best

/-- GameState.calculateSetenta (part_003): scan the pile, then score 0
unless four suits are recorded, else the sum of the recorded values. -/
def calculateSetenta (pile : List Card) : Int :=
  let best := pile.foldl setentaStep []
  if best.length < 4 then 0
  else (best.map Prod.snd).sum

/-- The error values of part_003 (errGameIsEnded, errActionNotPossible):
the only two error kinds the engine produces. -/
inductive EscobaError where
  | errGameIsEnded
  | errActionNotPossible
deriving DecidableEq, Repr

/-- The round-number bump, turn hand-over to the dealer and
round-just-started flag at the top of GameState.startNewRound (part_003),
performed before the deck-size check. -/
def bumpRound (g : GameState) : GameState :=
  { g with RoundJustStarted := true, RoundNumber := g.RoundNumber + 1,
           TurnPlayerID := g.RoundTurnPlayerID }

/-- The dealing branch of GameState.startNewRound (part_003), taken when
the deck holds at least 6 cards: deal 3 cards to each hand (deck.dealHand
takes from the front); on round 1 also deal 4 table cards and, if they
sum to 15, credit them to the dealer as a pile capture plus an escoba;
finally clear RoundFinished and recompute the possible actions. -/
def startNewRoundDeal (g : GameState) : GameState :=
  let hands0 := g.deck.take 3
  let rest0 := g.deck.drop 3
  let hands1 := rest0.take 3
  let g1 := { g with Hands := Function.update (Function.update g.Hands 0 hands0) 1 hands1, deck := rest0.drop 3 }
  let g2 :=
    if g1.RoundNumber = 1 then
      let g3 := { g1 with TableCards := g1.TableCards ++ g1.deck.take 4, deck := g1.deck.drop 4 }
      if sumCards g3.TableCards = 15 then
        { g3 with Piles := Function.update g3.Piles g3.RoundTurnPlayerID (g3.Piles g3.RoundTurnPlayerID ++ g3.TableCards),
                  Escobas := Function.update g3.Escobas g3.RoundTurnPlayerID (g3.Escobas g3.RoundTurnPlayerID + 1),
                  LastCapturerPlayerID := g3.RoundTurnPlayerID,
                  TableCards := [] }
      else g3
    else g1
  let g4 := { g2 with RoundFinished := false }
  { g4 with PossibleActions := serializeActions (CalculatePossibleActions g4) }

/-- GameState.startNewSet (part_003): fresh deck, cleared table, piles and
escobas, last capturer reset to the current mano, round counter back to
0, set flags reset, then the first round is started.  The fresh deck
always holds 40 cards, so the deck-size check in startNewRound always
takes the dealing branch here; the embedding therefore enters the
dealing branch directly (newDeck is the shuffled deck this set uses). -/
def startNewSet (newDeck : List Card) (g : GameState) : GameState :=
  let g1 := { g with deck := newDeck, TableCards := [],
                     Piles := fun _ => [], Escobas := fun _ => 0,
                     LastCapturerPlayerID := g.RoundTurnPlayerID,
                     RoundNumber := 0, SetFinished := false,
                     SetJustStarted := true }
  startNewRoundDeal (bumpRound g1)

/-- The first step of GameState.scoreSet (part_003): remaining table
cards go to the pile of the last capturer and the table is cleared. -/
def awardTable (g : GameState) : GameState :=
  if 0 < g.TableCards.length then
    { g with Piles := Function.update g.Piles g.LastCapturerPlayerID (g.Piles g.LastCapturerPlayerID ++ g.TableCards),
             TableCards := [] }
  else g

/-- The per-player statistics and point awards of GameState.scoreSet
(part_003), computed over the piles after the table award.  Points: one
per escoba, one for strictly more cards, one for strictly more oro
cards, one for the 7 of oro (the Go code checks player 0 first), one for
the strictly greater positive setenta score. -/
def computeSetResult (escobasThisSet : Fin 2 → Nat) (g1 : GameState) : SetResult :=
  let cardCounts : Fin 2 → Nat := fun i => (g1.Piles i).length
  let oroCardCounts : Fin 2 → Nat := fun i => ((g1.Piles i).filter (fun c => c.Suit = ORO)).length
  let hasSieteDeOro : Fin 2 → Bool := fun i => (g1.Piles i).any (fun c => c.Suit = ORO && c.Number = 7)
  let setentaScores : Fin 2 → Int := fun i => calculateSetenta (g1.Piles i)
  let pts0 := escobasThisSet 0
    + (if cardCounts 1 < cardCounts 0 then 1 else 0)
    + (if oroCardCounts 1 < oroCardCounts 0 then 1 else 0)
    + (if hasSieteDeOro 0 then 1 else 0)
    + (if setentaScores 1 < setentaScores 0 ∧ 0 < setentaScores 0 then 1 else 0)
  let pts1 := escobasThisSet 1
    + (if cardCounts 0 < cardCounts 1 then 1 else 0)
    + (if oroCardCounts 0 < oroCardCounts 1 then 1 else 0)
    + (if !hasSieteDeOro 0 && hasSieteDeOro 1 then 1 else 0)
    + (if setentaScores 0 < setentaScores 1 ∧ 0 < setentaScores 1 then 1 else 0)
  ⟨cardCounts, oroCardCounts, hasSieteDeOro, setentaScores,
   fun i => if i = 0 then pts0 else pts1, escobasThisSet⟩

/-- GameState.scoreSet (part_003).  Remaining table cards go to the last
capturer; per-player counts, the 7-of-oro flag and the setenta score are
computed from the piles; points are awarded per category with strict
comparisons; scores are updated; at 15 or more points the game ends with
the strictly higher score winning (equal scores draw), otherwise the
mano rotates and a new set starts from newDeck. -/
def scoreSet (newDeck : List Card) (g : GameState) : GameState :=
  let escobasThisSet : Fin 2 → Nat := fun i => g.Escobas i
  let g1 := awardTable g
  let result := computeSetResult escobasThisSet g1
  let newScores : Fin 2 → Nat := fun i => g1.Scores i + result.PointsAwarded i
  let g2 : GameState := { g1 with Scores := newScores, LastSetResults := some result }
  if decide (15 ≤ g2.Scores 0) || decide (15 ≤ g2.Scores 1) then
    { g2 with IsEnded := true,
              WinnerPlayerID :=
                if g2.Scores 1 < g2.Scores 0 then 0
                else if g2.Scores 0 < g2.Scores 1 then 1
                else -1 }
  else
    startNewSet newDeck { g2 with RoundTurnPlayerID := opponentOf g2.RoundTurnPlayerID }

/-- GameState.startNewRound (part_003): bump the round, hand the turn to
the mano, then deal if the deck still holds 6 cards, otherwise mark the
set finished and score it (newDeck is used only when scoring rolls over
into a new set). -/
def startNewRound (newDeck : List Card) (g : GameState) : GameState :=
  let g1 := bumpRound g
  if 6 ≤ g1.deck.length then startNewRoundDeal g1
  else scoreSet newDeck { g1 with SetFinished := true }

/-- New (part_003): the initial state (player 0 is mano and default last
capturer, scores zero, winner sentinel -1) followed by startNewSet.
firstDeck models the newDeck() call of the first set. -/
def New (firstDeck : List Card) : GameState :=
  startNewSet firstDeck
    { RoundTurnPlayerID := 0, RoundNumber := 0, TurnPlayerID := 0,
      Hands := fun _ => [], TableCards := [], Piles := fun _ => [],
      Escobas := fun _ => 0, Scores := fun _ => 0, PossibleActions := [],
      RoundFinished := false, SetFinished := false, IsEnded := false,
      WinnerPlayerID := -1, Actions := [], ActionOwnerPlayerIDs := [],
      RoundJustStarted := false, LastSetResults := none,
      LastCapturerPlayerID := 0, SetJustStarted := false, deck := firstDeck }

/-- GameState.RunAction (part_003): reject after game end or when the
action is not possible; otherwise run the action (ActionThrowCard.Run
never fails), clear the just-started flags, append the action and its
owner to the history, mark the round finished when both hands are empty,
then either start the next round, or stop at a finished set, or hand the
turn to the opponent (every action yields the turn) and recompute the
possible actions.  newDeck is used only when a finished round rolls over
into scoring and a new set. -/
def RunAction (newDeck : List Card) (a : ActionThrowCard) (g : GameState) :
    Except EscobaError GameState :=
  if g.IsEnded then .error .errGameIsEnded
  else if !(a.IsPossible g) then .error .errActionNotPossible
  else
    let g1 := a.Run g
    let g2 := { g1 with RoundJustStarted := false, SetJustStarted := false,
                        Actions := g1.Actions ++ [SerializeAction a],
                        ActionOwnerPlayerIDs := g1.ActionOwnerPlayerIDs ++ [g1.TurnPlayerID] }
    let g3 :=
      if (g2.Hands 0).isEmpty && (g2.Hands 1).isEmpty then
        { g2 with RoundFinished := true }
      else g2
    if !g3.IsEnded && g3.RoundFinished && !g3.SetFinished then
      .ok (startNewRound newDeck g3)
    else if g3.SetFinished then .ok g3
    else
      let g4 :=
        if !g3.IsEnded && !g3.RoundFinished then
          { g3 with TurnPlayerID := opponentOf g3.TurnPlayerID }
        else g3
      .ok { g4 with PossibleActions := serializeActions (CalculatePossibleActions g4) }

/-- The reachable states of the engine: a freshly constructed game, and
any successful action application, where every deck the engine draws is
a shuffled full Spanish deck. -/
inductive Reachable : GameState → Prop where
  | init (d : List Card) (hd : ValidDeck d) : Reachable (New d)
  | step (g : GameState) (a : ActionThrowCard) (d : List Card) (g' : GameState)
      (hg : Reachable g) (hd : ValidDeck d) (h : RunAction d a g = .ok g') :
      Reachable g'

-- HELPER LEMMAS

theorem validCard_value_bounds : ∀ c, ValidCard c →
    1 ≤ c.GetEscobaValue ∧ c.GetEscobaValue ≤ 10 := by
  have h : ∀ c ∈ makeSpanishCards, 1 ≤ c.GetEscobaValue ∧ c.GetEscobaValue ≤ 10 := by
    decide
  exact fun c hc => h c hc

theorem makeSpanishCards_nodup : makeSpanishCards.Nodup := by decide

theorem makeSpanishCards_length : makeSpanishCards.length = 40 := by decide

/-- Packaging of the DFS characterization at the top level: for card
values as they occur in play, the combination list contains exactly the
sublists of the table summing to the capture target. -/
theorem findAllValidCombinations_mem (thrownCard : Card) (tableCards : List Card)
    (hpos : ∀ c ∈ tableCards, 1 ≤ c.GetEscobaValue)
    (hth : thrownCard.GetEscobaValue < 15) (l : List Card) :
    l ∈ findAllValidCombinations thrownCard tableCards ↔
      l.Sublist tableCards ∧ sumCards l = 15 - thrownCard.GetEscobaValue := by
  unfold findAllValidCombinations
  rw [if_neg (by omega)]
  rw [findCombinationsDFS_mem _ _ _ hpos]
  constructor
  · rintro ⟨s, hs, hsum, rfl⟩
    simpa using ⟨hs, hsum⟩
  · rintro ⟨hs, hsum⟩
    exact ⟨l, hs, hsum, by simp⟩

theorem findAllValidCombinations_empty_of_high (thrownCard : Card)
    (tableCards : List Card) (h : 15 - thrownCard.GetEscobaValue ≤ 0) :
    findAllValidCombinations thrownCard tableCards = [] := by
  unfold findAllValidCombinations
  rw [if_pos (by omega)]

/-- Decomposition of ActionThrowCard.IsPossible into its three clauses. -/
theorem isPossible_iff_decomp (a : ActionThrowCard) (g : GameState) :
    a.IsPossible g = true ↔
      a.ThrownCard ∈ g.Hands g.TurnPlayerID ∧
      ((a.CapturedTableCards = [] ∧
          findAllValidCombinations a.ThrownCard g.TableCards = []) ∨
       (a.CapturedTableCards ≠ [] ∧
          sumCards a.CapturedTableCards = 15 - a.ThrownCard.GetEscobaValue ∧
          List.Subperm a.CapturedTableCards g.TableCards)) := by
  unfold ActionThrowCard.IsPossible
  by_cases hmem : a.ThrownCard ∈ g.Hands g.TurnPlayerID
  · rw [if_neg (by simpa using hmem)]
    by_cases hcap : a.CapturedTableCards = []
    · rw [if_pos (by simpa [List.isEmpty_iff] using hcap)]
      simp [List.isEmpty_iff, hmem, hcap]
    · rw [if_neg (by simpa [List.isEmpty_iff] using hcap)]
      by_cases hsum : sumCards a.CapturedTableCards = 15 - a.ThrownCard.GetEscobaValue
      · rw [if_neg (by simpa using hsum)]
        rw [consumeFromTable_eq_subperm]
        simp [hmem, hcap, hsum]
      · rw [if_pos (by simpa using hsum)]
        simp [hmem, hcap, hsum]
  · rw [if_pos (by simpa using hmem)]
    simp [hmem]

-- REACHABILITY INVARIANT

/-- Every card of the game, wherever it currently sits: both hands, the
table, both piles and the undealt remainder of the deck. -/
def allCards (g : GameState) : List Card :=
  g.Hands 0 ++ (g.Hands 1 ++ (g.TableCards ++ (g.Piles 0 ++ (g.Piles 1 ++ g.deck))))

/-- The inductive invariant: the cards in play are a permutation of the
40-card deck, and in any non-ended state the round/set-finished flags are
clear and the player to move holds at least one card, at most one more
than the opponent. -/
def Inv (g : GameState) : Prop :=
  (allCards g).Perm makeSpanishCards ∧
  (g.IsEnded = false →
    g.RoundFinished = false ∧ g.SetFinished = false ∧
    1 ≤ (g.Hands g.TurnPlayerID).length ∧
    ((g.Hands g.TurnPlayerID).length = (g.Hands (opponentOf g.TurnPlayerID)).length ∨
     (g.Hands g.TurnPlayerID).length = (g.Hands (opponentOf g.TurnPlayerID)).length + 1))

theorem fin2_eq_zero_or_one (i : Fin 2) : i = 0 ∨ i = 1 := by omega

theorem opponentOf_zero : opponentOf 0 = 1 := by decide

theorem opponentOf_one : opponentOf 1 = 0 := by decide

theorem opponentOf_ne (i : Fin 2) : opponentOf i ≠ i := by
  rcases fin2_eq_zero_or_one i with h | h <;> subst h <;> decide

/-- Dissection of the no-duplicates property of allCards into the parts
the action proofs need. -/
theorem allCards_nodup_parts (g : GameState) (hnd : (allCards g).Nodup) :
    (g.Hands 0).Nodup ∧ (g.Hands 1).Nodup ∧ g.TableCards.Nodup ∧
    (∀ c ∈ g.Hands 0, c ∉ g.TableCards) ∧ (∀ c ∈ g.Hands 1, c ∉ g.TableCards) := by
  unfold allCards at hnd
  rw [List.nodup_append] at hnd
  obtain ⟨h0, hnd, d0⟩ := hnd
  rw [List.nodup_append] at hnd
  obtain ⟨h1, hnd, d1⟩ := hnd
  rw [List.nodup_append] at hnd
  obtain ⟨ht, -, -⟩ := hnd
  refine ⟨h0, h1, ht, ?_, ?_⟩
  · intro c hc hct
    exact d0 hc (by simp [hct])
  · intro c hc hct
    exact d1 hc (by simp [hct])

/-- The first half of the table split: the table cards that belong to the
declared capture are, as a multiset, exactly the declared capture. -/
theorem filter_mem_captured_perm (table captured : List Card)
    (hnd : table.Nodup) (hcnd : captured.Nodup)
    (hsub : captured ⊆ table) :
    (table.filter (fun c => decide (c ∈ captured))).Perm captured := by
  apply List.Subperm.antisymm
  · rw [List.subperm_ext_iff]
    intro x hx
    have hxc : x ∈ captured := by
      have := List.mem_filter.mp hx
      simpa using this.2
    have h1 : (table.filter (fun c => decide (c ∈ captured))).count x ≤ table.count x :=
      (List.filter_sublist _).count_le x
    have h2 : table.count x = 1 := List.count_eq_one_of_mem hnd (hsub hxc)
    have h3 : captured.count x = 1 := List.count_eq_one_of_mem hcnd hxc
    omega
  · rw [List.subperm_ext_iff]
    intro x hx
    have h3 : captured.count x = 1 := List.count_eq_one_of_mem hcnd hx
    have h2 : table.count x = 1 := List.count_eq_one_of_mem hnd (hsub hx)
    have h4 : (table.filter (fun c => decide (c ∈ captured))).count x = table.count x := by
      rw [List.count_filter]
      simp [hx]
    omega

/-- The table split used by a capturing run: removing the captured cards
(and the thrown card, which is not on the table) leaves exactly the
non-captured table cards; together with the captured cards this is the
whole table. -/
theorem table_capture_perm (table captured : List Card) (t : Card)
    (hnd : table.Nodup) (ht : t ∉ table) (hsub : List.Subperm captured table) :
    table.Perm (captured ++ removeCardsFromTable table (captured ++ [t])) := by
  have hcnd : captured.Nodup := by
    obtain ⟨l, hp, hs⟩ := hsub
    exact hp.nodup (hs.nodup hnd)
  have hss : captured ⊆ table := hsub.subset
  have hrw : removeCardsFromTable table (captured ++ [t]) =
      table.filter (fun c => !decide (c ∈ captured)) := by
    unfold removeCardsFromTable
    rw [List.dedup_eq_self.mpr hnd]
    apply List.filter_congr
    intro c hc
    have hct : c ≠ t := fun h => ht (h ▸ hc)
    simp [hct]
  rw [hrw]
  have hperm := List.filter_append_perm (fun c => decide (c ∈ captured)) table
  have hleft := filter_mem_captured_perm table captured hnd hcnd hss
  exact hperm.symm.trans (hleft.append_right _)

/-- Fields of the state unchanged (or uniformly changed) by
ActionThrowCard.Run, in every branch. -/
theorem run_effects (a : ActionThrowCard) (g : GameState) :
    (a.Run g).TurnPlayerID = g.TurnPlayerID ∧
    (a.Run g).IsEnded = g.IsEnded ∧
    (a.Run g).RoundFinished = g.RoundFinished ∧
    (a.Run g).SetFinished = g.SetFinished ∧
    (a.Run g).deck = g.deck ∧
    (a.Run g).Hands = Function.update g.Hands g.TurnPlayerID
      ((g.Hands g.TurnPlayerID).erase a.ThrownCard) := by
  unfold ActionThrowCard.Run
  split_ifs <;> simp [apply_ite]

/-- The pile and table fields produced by ActionThrowCard.Run in each
branch. -/
theorem run_proj (a : ActionThrowCard) (g : GameState) :
    ((a.Run g).Piles = if 0 < a.CapturedTableCards.length then
        Function.update g.Piles g.TurnPlayerID
          (g.Piles g.TurnPlayerID ++ (a.CapturedTableCards ++ [a.ThrownCard]))
      else g.Piles) ∧
    ((a.Run g).TableCards = if 0 < a.CapturedTableCards.length then
        removeCardsFromTable g.TableCards (a.CapturedTableCards ++ [a.ThrownCard])
      else g.TableCards ++ [a.ThrownCard]) := by
  unfold ActionThrowCard.Run
  split_ifs <;> simp_all [apply_ite]

/-- A capturing or discarding run only rearranges cards: the full card
collection of the state is preserved up to permutation. -/
theorem run_allCards_perm (a : ActionThrowCard) (g : GameState)
    (hmem : a.ThrownCard ∈ g.Hands g.TurnPlayerID)
    (hcap : a.CapturedTableCards = [] ∨ List.Subperm a.CapturedTableCards g.TableCards)
    (hnd : (allCards g).Nodup) :
    (allCards (a.Run g)).Perm (allCards g) := by
  obtain ⟨h0nd, h1nd, htnd, hd0, hd1⟩ := allCards_nodup_parts g hnd
  obtain ⟨-, -, -, -, hdeck, hHands⟩ := run_effects a g
  obtain ⟨hPiles, hTable⟩ := run_proj a g
  have m1 : (g.Hands g.TurnPlayerID).Perm (((g.Hands g.TurnPlayerID).erase a.ThrownCard) ++ [a.ThrownCard]) := by
    refine (List.perm_cons_erase hmem).trans ?_
    exact (List.perm_append_singleton _ _).symm
  by_cases hlen : 0 < a.CapturedTableCards.length
  · have hne : a.CapturedTableCards ≠ [] := by
      intro h
      rw [h] at hlen
      simp at hlen
    have hsubp : List.Subperm a.CapturedTableCards g.TableCards := by
      rcases hcap with h | h
      · exact absurd h hne
      · exact h
    have hthr : a.ThrownCard ∉ g.TableCards := by
      rcases fin2_eq_zero_or_one g.TurnPlayerID with hT | hT
      · exact hd0 _ (hT ▸ hmem)
      · exact hd1 _ (hT ▸ hmem)
    have m2 := table_capture_perm g.TableCards a.CapturedTableCards a.ThrownCard htnd hthr hsubp
    rw [if_pos hlen] at hPiles hTable
    rw [← Multiset.coe_eq_coe]
    rcases fin2_eq_zero_or_one g.TurnPlayerID with hT | hT <;> simp only [hT] at hPiles hTable hmem m1 hHands <;>
      simp only [allCards, hHands, hPiles, hTable, hdeck, hT, Function.update_same,
        Function.update_noteq (show (1 : Fin 2) ≠ 0 by decide),
        Function.update_noteq (show (0 : Fin 2) ≠ 1 by decide), ← Multiset.coe_add] <;>
      rw [Multiset.coe_eq_coe.mpr m1, Multiset.coe_eq_coe.mpr m2] <;>
      simp only [← Multiset.coe_add] <;> abel
  · have hcap0 : a.CapturedTableCards = [] := by
      rcases hcap with h | h
      · exact h
      · exact List.length_eq_zero.mp (by omega)
    rw [if_neg hlen] at hPiles hTable
    rw [← Multiset.coe_eq_coe]
    rcases fin2_eq_zero_or_one g.TurnPlayerID with hT | hT <;> simp only [hT] at hmem m1 hHands <;>
      simp only [allCards, hHands, hPiles, hTable, hdeck, hT, Function.update_same,
        Function.update_noteq (show (1 : Fin 2) ≠ 0 by decide),
        Function.update_noteq (show (0 : Fin 2) ≠ 1 by decide), ← Multiset.coe_add] <;>
      rw [Multiset.coe_eq_coe.mpr m1] <;>
      simp only [← Multiset.coe_add] <;> abel

/-- Fields of the state after the dealing branch of a round start. -/
theorem startNewRoundDeal_fields (g : GameState) :
    (startNewRoundDeal g).TurnPlayerID = g.TurnPlayerID ∧
    (startNewRoundDeal g).RoundTurnPlayerID = g.RoundTurnPlayerID ∧
    (startNewRoundDeal g).RoundNumber = g.RoundNumber ∧
    (startNewRoundDeal g).IsEnded = g.IsEnded ∧
    (startNewRoundDeal g).SetFinished = g.SetFinished ∧
    (startNewRoundDeal g).RoundFinished = false ∧
    (startNewRoundDeal g).Hands 0 = g.deck.take 3 ∧
    (startNewRoundDeal g).Hands 1 = (g.deck.drop 3).take 3 ∧
    ((startNewRoundDeal g).LastCapturerPlayerID = g.LastCapturerPlayerID ∨
     (startNewRoundDeal g).LastCapturerPlayerID = g.RoundTurnPlayerID) := by
  unfold startNewRoundDeal
  dsimp only
  split_ifs <;>
    simp [Function.update_same, Function.update_noteq (show (0 : Fin 2) ≠ 1 by decide)]

/-- Dealing a round only moves cards from the deck to the hands and the
table (and possibly, on an initial escoba, from the table to a pile):
when the previous hands are empty the card collection is preserved. -/
theorem startNewRoundDeal_allCards (g : GameState)
    (hh0 : g.Hands 0 = []) (hh1 : g.Hands 1 = []) :
    (allCards (startNewRoundDeal g)).Perm (allCards g) := by
  have e1 : g.deck.take 3 ++ g.deck.drop 3 = g.deck := List.take_append_drop 3 g.deck
  have e2 : (g.deck.drop 3).take 3 ++ (g.deck.drop 3).drop 3 = g.deck.drop 3 :=
    List.take_append_drop 3 (g.deck.drop 3)
  have e3 : ((g.deck.drop 3).drop 3).take 4 ++ ((g.deck.drop 3).drop 3).drop 4 =
      (g.deck.drop 3).drop 3 := List.take_append_drop 4 ((g.deck.drop 3).drop 3)
  have md1 : (g.deck : Multiset Card) = ↑(g.deck.take 3) + ↑(g.deck.drop 3) := by
    rw [Multiset.coe_add, e1]
  have md2 : ((g.deck.drop 3 : List Card) : Multiset Card) =
      ↑((g.deck.drop 3).take 3) + ↑((g.deck.drop 3).drop 3) := by
    rw [Multiset.coe_add, e2]
  have md3 : (((g.deck.drop 3).drop 3 : List Card) : Multiset Card) =
      ↑(((g.deck.drop 3).drop 3).take 4) + ↑(((g.deck.drop 3).drop 3).drop 4) := by
    rw [Multiset.coe_add, e3]
  unfold startNewRoundDeal
  dsimp only
  split_ifs with hr1 hsum
  · rcases fin2_eq_zero_or_one g.RoundTurnPlayerID with hT | hT <;> rw [hT] <;>
      rw [← Multiset.coe_eq_coe] <;>
      simp only [allCards, hh0, hh1, Function.update_same,
        Function.update_noteq (show (1 : Fin 2) ≠ 0 by decide),
        Function.update_noteq (show (0 : Fin 2) ≠ 1 by decide), ← Multiset.coe_add] <;>
      rw [md1, md2, md3] <;> abel
  · rw [← Multiset.coe_eq_coe]
    simp only [allCards, hh0, hh1, Function.update_same,
      Function.update_noteq (show (1 : Fin 2) ≠ 0 by decide),
      Function.update_noteq (show (0 : Fin 2) ≠ 1 by decide), ← Multiset.coe_add]
    rw [md1, md2, md3]
    abel
  · rw [← Multiset.coe_eq_coe]
    simp only [allCards, hh0, hh1, Function.update_same,
      Function.update_noteq (show (1 : Fin 2) ≠ 0 by decide),
      Function.update_noteq (show (0 : Fin 2) ≠ 1 by decide), ← Multiset.coe_add]
    rw [md1, md2]
    abel
/-- The dealing branch replaces both hands outright, so the previous
hands are immaterial to it. -/
theorem startNewRoundDeal_hands_irrel (g : GameState) (h : Fin 2 → List Card) :
    startNewRoundDeal { g with Hands := h } = startNewRoundDeal g := by
  unfold startNewRoundDeal
  dsimp only
  have he : Function.update (Function.update h 0 (g.deck.take 3)) 1 ((g.deck.drop 3).take 3) =
      Function.update (Function.update g.Hands 0 (g.deck.take 3)) 1 ((g.deck.drop 3).take 3) := by
    funext i
    rcases fin2_eq_zero_or_one i with hi | hi <;> subst hi <;>
      simp [Function.update_apply]
  rw [he]

/-- The dealing branch of a round start establishes the invariant from
empty hands whenever the deck suffices. -/
theorem roundDeal_inv_of_empty (g : GameState)
    (hh0 : g.Hands 0 = []) (hh1 : g.Hands 1 = [])
    (hsf : g.SetFinished = false)
    (hperm : (allCards g).Perm makeSpanishCards)
    (h6 : 6 ≤ g.deck.length) : Inv (startNewRoundDeal g) := by
  obtain ⟨hturn, hrt, hrn, hie, hsf2, hrf, hH0, hH1, -⟩ := startNewRoundDeal_fields g
  constructor
  · exact (startNewRoundDeal_allCards g hh0 hh1).trans hperm
  · intro _
    have hl0 : ((startNewRoundDeal g).Hands 0).length = 3 := by
      rw [hH0]
      simp [List.length_take]
      omega
    have hl1 : ((startNewRoundDeal g).Hands 1).length = 3 := by
      rw [hH1]
      simp [List.length_take, List.length_drop]
      omega
    refine ⟨hrf, by rw [hsf2, hsf], ?_, ?_⟩
    · rcases fin2_eq_zero_or_one ((startNewRoundDeal g).TurnPlayerID) with hT | hT <;>
        rw [hT] <;> omega
    · rcases fin2_eq_zero_or_one ((startNewRoundDeal g).TurnPlayerID) with hT | hT <;>
        rw [hT] <;> left
      · rw [opponentOf_zero]
        omega
      · rw [opponentOf_one]
        omega

/-- Starting a new set establishes the full invariant from scratch: the
fresh deck is the whole card collection, hands are redealt 3/3, flags are
reset and the mano takes the turn. -/
theorem startNewSet_inv (d : List Card) (g : GameState) (hd : ValidDeck d) :
    Inv (startNewSet d g) := by
  have hlen : d.length = 40 := by
    have := hd.length_eq
    rwa [makeSpanishCards_length] at this
  unfold startNewSet
  dsimp only
  rw [← startNewRoundDeal_hands_irrel _ (fun _ => [])]
  apply roundDeal_inv_of_empty
  · rfl
  · rfl
  · simp [bumpRound]
  · simp only [allCards, bumpRound]
    simp only [List.nil_append, List.append_nil]
    exact hd
  · simp [bumpRound]
    omega
/-- Awarding the table to the last capturer moves cards only. -/
theorem awardTable_allCards (g : GameState) :
    (allCards (awardTable g)).Perm (allCards g) := by
  unfold awardTable
  split_ifs with h
  · rw [← Multiset.coe_eq_coe]
    rcases fin2_eq_zero_or_one g.LastCapturerPlayerID with hT | hT <;> rw [hT] <;>
      simp only [allCards, Function.update_same,
        Function.update_noteq (show (1 : Fin 2) ≠ 0 by decide),
        Function.update_noteq (show (0 : Fin 2) ≠ 1 by decide), ← Multiset.coe_add] <;>
      abel
  · exact List.Perm.refl _

/-- Scoring a finished set preserves the invariant: awarding the table to
the last capturer only moves cards, ending the game makes the hand
conditions vacuous, and rolling over into a new set redeals from the
fresh deck. -/
theorem scoreSet_inv (d : List Card) (g : GameState) (hd : ValidDeck d)
    (hperm : (allCards g).Perm makeSpanishCards) :
    Inv (scoreSet d g) := by
  unfold scoreSet
  dsimp only
  split_ifs <;>
    first
      | exact startNewSet_inv d _ hd
      | exact ⟨(awardTable_allCards g).trans hperm, by intro h; simp at h⟩
theorem opponentOf_opponentOf (i : Fin 2) : opponentOf (opponentOf i) = i := by
  rcases fin2_eq_zero_or_one i with h | h <;> subst h <;> decide

/-- Starting a round (dealing or rolling over into scoring) preserves the
invariant when both hands are empty and the set is not yet finished. -/
theorem startNewRound_inv (d : List Card) (g : GameState) (hd : ValidDeck d)
    (hperm : (allCards g).Perm makeSpanishCards)
    (hh0 : g.Hands 0 = []) (hh1 : g.Hands 1 = [])
    (hsf : g.SetFinished = false) :
    Inv (startNewRound d g) := by
  unfold startNewRound
  dsimp only
  split_ifs with h6
  · exact roundDeal_inv_of_empty _ hh0 hh1 hsf hperm h6
  · exact scoreSet_inv d _ hd hperm

/-- A successful RunAction preserves the invariant. -/
theorem RunAction_inv (d : List Card) (a : ActionThrowCard) (g g' : GameState)
    (hd : ValidDeck d) (hinv : Inv g) (hrun : RunAction d a g = .ok g') :
    Inv g' := by
  obtain ⟨hperm, hclause⟩ := hinv
  unfold RunAction at hrun
  by_cases hie : g.IsEnded
  · rw [if_pos hie] at hrun
    exact absurd hrun (by simp)
  · have hie' : g.IsEnded = false := by simpa using hie
    rw [if_neg hie] at hrun
    obtain ⟨hrf, hsf, hlen1, hlenOr⟩ := hclause hie'
    by_cases hposs : a.IsPossible g = true
    · rw [if_neg (by simp [hposs])] at hrun
      dsimp only at hrun
      obtain ⟨hmem, hcapd⟩ := (isPossible_iff_decomp a g).mp hposs
      have hcap : a.CapturedTableCards = [] ∨
          List.Subperm a.CapturedTableCards g.TableCards := by
        rcases hcapd with ⟨h1, -⟩ | ⟨-, -, h3⟩
        · exact Or.inl h1
        · exact Or.inr h3
      have hnd : (allCards g).Nodup := hperm.symm.nodup makeSpanishCards_nodup
      have hpermRun : (allCards (a.Run g)).Perm (allCards g) :=
        run_allCards_perm a g hmem hcap hnd
      obtain ⟨hturn, hie2, hrf2, hsf2, hdeck2, hHands2⟩ := run_effects a g
      by_cases hhe : (((a.Run g).Hands 0).isEmpty && ((a.Run g).Hands 1).isEmpty) = true
      · rw [if_pos hhe] at hrun
        rw [if_pos (by simp [hie2, hie', hsf2, hsf])] at hrun
        have hg' := Except.ok.inj hrun
        subst hg'
        rw [Bool.and_eq_true, List.isEmpty_iff, List.isEmpty_iff] at hhe
        apply startNewRound_inv d _ hd
        · exact hpermRun.trans hperm
        · exact hhe.1
        · exact hhe.2
        · rw [hsf2, hsf]
      · rw [if_neg hhe] at hrun
        rw [if_neg (by simp [hrf2, hrf]), if_neg (by simp [hsf2, hsf]),
            if_pos (by simp [hie2, hie', hrf2, hrf])] at hrun
        have hg' := Except.ok.inj hrun
        subst hg'
        constructor
        · exact hpermRun.trans hperm
        · intro _
          refine ⟨hrf2.trans hrf, hsf2.trans hsf, ?_⟩
          rw [Bool.and_eq_true] at hhe
          rw [hturn, hHands2]
          have hinvol := opponentOf_opponentOf g.TurnPlayerID
          have hne := opponentOf_ne g.TurnPlayerID
          have hlenT : ((g.Hands g.TurnPlayerID).erase a.ThrownCard).length =
              (g.Hands g.TurnPlayerID).length - 1 := List.length_erase_of_mem hmem
          rw [hinvol]
          rw [Function.update_noteq hne, Function.update_same]
          have hhe' : ¬(((g.Hands g.TurnPlayerID).erase a.ThrownCard).length = 0 ∧
              (g.Hands (opponentOf g.TurnPlayerID)).length = 0) := by
            intro ⟨hz1, hz2⟩
            apply hhe
            have e0 : (Function.update g.Hands g.TurnPlayerID
                ((g.Hands g.TurnPlayerID).erase a.ThrownCard)) 0 =
                ((a.Run g).Hands) 0 := by rw [hHands2]
            have e1 : (Function.update g.Hands g.TurnPlayerID
                ((g.Hands g.TurnPlayerID).erase a.ThrownCard)) 1 =
                ((a.Run g).Hands) 1 := by rw [hHands2]
            rcases fin2_eq_zero_or_one g.TurnPlayerID with hT | hT <;>
              rw [hT] at e0 e1 hz1 hz2 <;>
              [(rw [opponentOf_zero] at hz2); (rw [opponentOf_one] at hz2)]
            · rw [Function.update_same] at e0
              rw [Function.update_noteq (by decide)] at e1
              constructor
              · rw [← e0, List.isEmpty_iff]
                exact List.length_eq_zero.mp hz1
              · rw [← e1, List.isEmpty_iff]
                exact List.length_eq_zero.mp hz2
            · rw [Function.update_noteq (by decide)] at e0
              rw [Function.update_same] at e1
              constructor
              · rw [← e0, List.isEmpty_iff]
                exact List.length_eq_zero.mp hz2
              · rw [← e1, List.isEmpty_iff]
                exact List.length_eq_zero.mp hz1
          rw [hlenT]
          omega
    · rw [if_pos (by simp [hposs])] at hrun
      exact absurd hrun (by simp)

theorem New_inv (d : List Card) (hd : ValidDeck d) : Inv (New d) := by
  unfold New
  exact startNewSet_inv d _ hd

/-- Every reachable state satisfies the inductive invariant. -/
theorem reachable_inv (g : GameState) (h : Reachable g) : Inv g := by
  induction h with
  | init d hd => exact New_inv d hd
  | step g a d g' hg hd hrun ih => exact RunAction_inv d a g g' hd ih hrun

-- SETENTA: refinement of the calculateSetenta scan against a declarative
-- per-suit-maximum specification.

/-- The four suits, in the deck construction order. -/
def suitsList : List String := [ORO, COPA, ESPADA, BASTO]

/-- The capture values at most 7 that a pile holds in one suit. -/
def eligVals (pile : List Card) (s : String) : List Int :=
  (pile.filter (fun c => c.Suit = s && decide (c.GetEscobaValue ≤ 7))).map
    Card.GetEscobaValue

/-- The highest capture value at most 7 a pile holds in one suit (0 when
the suit is absent; only used when it is present). -/
def bestLE7 (pile : List Card) (s : String) : Int :=
  (eligVals pile s).foldl max 0

/-- Declarative setenta score, phrased from the specification: 0 unless
every suit holds a card of value at most 7, else the sum of the per-suit
maxima. -/
def setentaSpec (pile : List Card) : Int :=
  if suitsList.all (fun s => !(eligVals pile s).isEmpty) then
    (suitsList.map (fun s => bestLE7 pile s)).sum
  else 0

/-- Running best as the scan's map semantics: fold the incoming values
into an optional running maximum. -/
def mergeBest (o : Option Int) (vals : List Int) : Option Int :=
  vals.foldl (fun o v => some (match o with | none => v | some b => max b v)) o

theorem replaceValue_lookup (l : List (String × Int)) (k : String) (v : Int)
    (s : String) :
    (replaceValue l k v).lookup s =
      if s = k ∧ (l.lookup k).isSome then some v else l.lookup s := by
  induction l with
  | nil => simp [replaceValue]
  | cons p rest ih =>
      obtain ⟨a, b⟩ := p
      rw [replaceValue]
      by_cases hak : a = k
      · subst hak
        by_cases hsk : s = a
        · subst hsk
          simp [List.lookup_cons]
        · simp [List.lookup_cons, beq_false_of_ne hsk, hsk]
      · rw [if_neg hak]
        have hka : (k == a) = false := beq_false_of_ne (fun h => hak h.symm)
        by_cases hsa : s = a
        · have hsk : ¬s = k := fun h => hak (hsa.symm.trans h)
          rw [if_neg (by simp [hsk])]
          simp [List.lookup_cons, hsa]
        · simp only [List.lookup_cons, beq_false_of_ne hsa, hka]
          exact ih

theorem replaceValue_keys (l : List (String × Int)) (k : String) (v : Int) :
    (replaceValue l k v).map Prod.fst = l.map Prod.fst := by
  induction l with
  | nil => simp [replaceValue]
  | cons p rest ih =>
      obtain ⟨a, b⟩ := p
      by_cases hak : a = k
      · subst hak
        rw [replaceValue, if_pos rfl]
        simp
      · rw [replaceValue, if_neg hak]
        simp [ih]

theorem setentaStep_lookup (best : List (String × Int)) (c : Card) (s : String) :
    (setentaStep best c).lookup s =
      if c.GetEscobaValue ≤ 7 ∧ s = c.Suit then
        some (match best.lookup s with
              | none => c.GetEscobaValue
              | some b => max b c.GetEscobaValue)
      else best.lookup s := by
  unfold setentaStep
  dsimp only
  by_cases h7 : c.GetEscobaValue ≤ 7
  · rw [if_pos h7]
    cases hl : best.lookup c.Suit with
    | none =>
        by_cases hs : s = c.Suit
        · subst hs
          simp [List.lookup_cons, h7, hl]
        · simp [List.lookup_cons, beq_false_of_ne hs, h7, hs]
    | some b =>
        dsimp only
        by_cases hbv : b < c.GetEscobaValue
        · rw [if_pos hbv, replaceValue_lookup]
          by_cases hs : s = c.Suit
          · subst hs
            simp [hl, h7, max_eq_right (le_of_lt hbv)]
          · simp [hs, h7]
        · rw [if_neg hbv]
          by_cases hs : s = c.Suit
          · subst hs
            simp [hl, h7, max_eq_left (le_of_not_lt hbv)]
          · simp [hs, h7]
  · rw [if_neg h7]
    simp [h7]

theorem setentaStep_keys (best : List (String × Int)) (c : Card) :
    (setentaStep best c).map Prod.fst =
      if c.GetEscobaValue ≤ 7 ∧ best.lookup c.Suit = none then
        c.Suit :: best.map Prod.fst
      else best.map Prod.fst := by
  unfold setentaStep
  dsimp only
  by_cases h7 : c.GetEscobaValue ≤ 7
  · rw [if_pos h7]
    cases hl : best.lookup c.Suit with
    | none => simp [h7, hl]
    | some b =>
        dsimp only
        by_cases hbv : b < c.GetEscobaValue
        · rw [if_pos hbv]
          simp [h7, hl, replaceValue_keys]
        · rw [if_neg hbv]
          simp [h7, hl]
  · rw [if_neg h7]
    simp [h7]

theorem setentaScan_lookup (pile : List Card) (best : List (String × Int))
    (s : String) :
    ((pile.foldl setentaStep best).lookup s) = mergeBest (best.lookup s) (eligVals pile s) := by
  induction pile generalizing best with
  | nil => simp [mergeBest, eligVals]
  | cons c rest ih =>
      rw [List.foldl_cons, ih]
      by_cases hcs : c.Suit = s ∧ c.GetEscobaValue ≤ 7
      · have he : eligVals (c :: rest) s = c.GetEscobaValue :: eligVals rest s := by
          unfold eligVals
          rw [List.filter_cons, if_pos (by simp [hcs.1, hcs.2])]
          simp
        rw [he, setentaStep_lookup, if_pos ⟨hcs.2, hcs.1.symm⟩]
        unfold mergeBest
        rw [List.foldl_cons]
      · have he : eligVals (c :: rest) s = eligVals rest s := by
          unfold eligVals
          rw [List.filter_cons, if_neg (by
            simp only [Bool.and_eq_true, decide_eq_true_eq]
            exact fun hh => hcs ⟨hh.1, hh.2⟩)]
        rw [he, setentaStep_lookup, if_neg (fun h => hcs ⟨h.2.symm, h.1⟩)]

theorem setentaScan_keys_nodup (pile : List Card) (best : List (String × Int))
    (h : (best.map Prod.fst).Nodup) :
    ((pile.foldl setentaStep best).map Prod.fst).Nodup := by
  induction pile generalizing best with
  | nil => exact h
  | cons c rest ih =>
      rw [List.foldl_cons]
      apply ih
      rw [setentaStep_keys]
      split_ifs with hc
      · refine List.Nodup.cons ?_ h
        intro hmem
        rw [List.lookup_eq_none_iff] at hc
        obtain ⟨p, hp, hps⟩ := List.mem_map.mp hmem
        have := hc.2 p hp
        simp only [bne_iff_ne] at this
        exact this hps.symm
      · exact h

theorem mergeBest_eq_none_iff (o : Option Int) (vals : List Int) :
    mergeBest o vals = none ↔ o = none ∧ vals = [] := by
  induction vals generalizing o with
  | nil => simp [mergeBest]
  | cons v vs ih =>
      unfold mergeBest
      rw [List.foldl_cons]
      have := ih (some (match o with | none => v | some b => max b v))
      unfold mergeBest at this
      rw [this]
      simp

theorem mergeBest_some (b : Int) (vals : List Int) :
    mergeBest (some b) vals = some (vals.foldl max b) := by
  induction vals generalizing b with
  | nil => simp [mergeBest]
  | cons v vs ih =>
      unfold mergeBest
      rw [List.foldl_cons]
      have := ih (max b v)
      unfold mergeBest at this
      rw [this, List.foldl_cons]

theorem assoc_sum_eq (l : List (String × Int)) (h : (l.map Prod.fst).Nodup) :
    (l.map Prod.snd).sum =
      ((l.map Prod.fst).map (fun s => (l.lookup s).getD 0)).sum := by
  induction l with
  | nil => simp
  | cons p rest ih =>
      obtain ⟨k, v⟩ := p
      simp only [List.map_cons, List.sum_cons]
      simp only [List.map_cons, List.nodup_cons] at h
      have hrw : (rest.map Prod.fst).map (fun s => (((k, v) :: rest).lookup s).getD 0) =
          (rest.map Prod.fst).map (fun s => (rest.lookup s).getD 0) := by
        apply List.map_congr_left
        intro s hs
        have hne : ¬s = k := by
          intro hk
          exact h.1 (hk ▸ hs)
        rw [List.lookup_cons]
        simp [beq_false_of_ne hne]
      rw [hrw, ← ih h.2]
      simp [List.lookup_cons]

theorem lookup_getD_mem_keys (l : List (String × Int)) (s : String)
    (h : s ∈ l.map Prod.fst) : (l.lookup s).isSome = true := by
  rw [List.lookup_isSome_iff]
  obtain ⟨p, hp, hps⟩ := List.mem_map.mp h
  exact ⟨p, hp, by simp [hps]⟩

theorem mem_keys_of_lookup_isSome (l : List (String × Int)) (s : String)
    (h : (l.lookup s).isSome = true) : s ∈ l.map Prod.fst := by
  rw [List.lookup_isSome_iff] at h
  obtain ⟨p, hp, hps⟩ := h
  refine List.mem_map.mpr ⟨p, hp, ?_⟩
  have h2 : s = p.1 := by simpa using hps
  exact h2.symm

theorem validCard_suit_mem : ∀ c, ValidCard c → c.Suit ∈ suitsList := by
  have h : ∀ c ∈ makeSpanishCards, c.Suit ∈ suitsList := by decide
  exact fun c hc => h c hc

/-- The Go setenta scan computes the declarative setenta specification on
any pile of real cards. -/
theorem calculateSetenta_eq_spec (pile : List Card)
    (hv : ∀ c ∈ pile, ValidCard c) :
    calculateSetenta pile = setentaSpec pile := by
  have hpos : ∀ c ∈ pile, 1 ≤ c.GetEscobaValue :=
    fun c hc => (validCard_value_bounds c (hv c hc)).1
  have hlook : ∀ s, (pile.foldl setentaStep []).lookup s =
      mergeBest none (eligVals pile s) := by
    intro s
    rw [setentaScan_lookup]
    simp
  have hknd : ((pile.foldl setentaStep []).map Prod.fst).Nodup :=
    setentaScan_keys_nodup pile [] (by simp)
  have hmemkeys : ∀ s, s ∈ (pile.foldl setentaStep []).map Prod.fst ↔
      eligVals pile s ≠ [] := by
    intro s
    constructor
    · intro hs
      have := lookup_getD_mem_keys _ s hs
      rw [hlook s] at this
      intro hnil
      rw [hnil] at this
      simp [mergeBest] at this
    · intro hne
      apply mem_keys_of_lookup_isSome
      rw [hlook s]
      rcases he : eligVals pile s with _ | ⟨v, vs⟩
      · exact absurd he hne
      · unfold mergeBest
        rw [List.foldl_cons]
        have := mergeBest_some v vs
        unfold mergeBest at this
        simp only [this]
        simp
  have hkeysub : ∀ s ∈ (pile.foldl setentaStep []).map Prod.fst, s ∈ suitsList := by
    intro s hs
    have hne := (hmemkeys s).mp hs
    rcases he : eligVals pile s with _ | ⟨v, vs⟩
    · exact absurd he hne
    · unfold eligVals at he
      rcases hf : pile.filter (fun c => c.Suit = s && decide (c.GetEscobaValue ≤ 7)) with _ | ⟨c, cs⟩
      · rw [hf] at he
        simp at he
      · have hcmem := List.mem_of_mem_filter (hf ▸ List.mem_cons_self c cs)
        have hcs : c.Suit = s := by
          have := List.of_mem_filter (hf ▸ List.mem_cons_self c cs)
          simp at this
          exact this.1
        exact hcs ▸ validCard_suit_mem c (hv c hcmem)
  by_cases hall : ∀ s ∈ suitsList, eligVals pile s ≠ []
  · have hsub1 : suitsList ⊆ (pile.foldl setentaStep []).map Prod.fst := by
      intro s hs
      exact (hmemkeys s).mpr (hall s hs)
    have hsub2 : (pile.foldl setentaStep []).map Prod.fst ⊆ suitsList := hkeysub
    have hsnd : suitsList.Nodup := by decide
    have hperm : ((pile.foldl setentaStep []).map Prod.fst).Perm suitsList :=
      (List.subperm_of_subset hknd hsub2).antisymm (List.subperm_of_subset hsnd hsub1)
    have hlen4 : ((pile.foldl setentaStep []).map Prod.fst).length = 4 := by
      rw [hperm.length_eq]
      decide
    unfold calculateSetenta setentaSpec
    rw [if_neg (by rw [List.length_map] at hlen4; omega),
        if_pos (by
          rw [List.all_eq_true]
          intro s hs
          simpa [List.isEmpty_iff] using hall s hs)]
    rw [assoc_sum_eq _ hknd]
    have hmap : ∀ s ∈ suitsList,
        ((pile.foldl setentaStep []).lookup s).getD 0 = bestLE7 pile s := by
      intro s hs
      rw [hlook s]
      rcases he : eligVals pile s with _ | ⟨v, vs⟩
      · exact absurd he (hall s hs)
      · have hv1 : 1 ≤ v := by
          have : v ∈ eligVals pile s := by rw [he]; exact List.mem_cons_self v vs
          unfold eligVals at this
          obtain ⟨c, hc, hcv⟩ := List.mem_map.mp this
          exact hcv ▸ (validCard_value_bounds c (hv c (List.mem_of_mem_filter hc))).1
        unfold mergeBest
        rw [List.foldl_cons]
        have h2 := mergeBest_some v vs
        unfold mergeBest at h2
        simp only [h2]
        unfold bestLE7
        rw [he, List.foldl_cons]
        have : max 0 v = v := max_eq_right (by omega)
        rw [this]
        simp
    have hs1 : (((pile.foldl setentaStep []).map Prod.fst).map
          (fun s => ((pile.foldl setentaStep []).lookup s).getD 0)).sum =
        (suitsList.map (fun s => ((pile.foldl setentaStep []).lookup s).getD 0)).sum :=
      (hperm.map _).sum_eq
    rw [hs1, List.map_congr_left hmap]
  · push_neg at hall
    obtain ⟨s0, hs0mem, hs0⟩ := hall
    have hsubE : (pile.foldl setentaStep []).map Prod.fst ⊆ suitsList.erase s0 := by
      intro s hs
      have h1 := hkeysub s hs
      have h2 : s ≠ s0 := by
        intro heq
        exact ((hmemkeys s).mp hs) (heq ▸ hs0)
      exact (List.mem_erase_of_ne h2).mpr h1
    have hle := (List.subperm_of_subset hknd hsubE).length_le
    have he3 : (suitsList.erase s0).length = 3 := by
      have h4 : suitsList.length = 4 := by decide
      rw [List.length_erase_of_mem hs0mem, h4]
    have hlt : (List.foldl setentaStep [] pile).length < 4 := by
      have hlm : ((pile.foldl setentaStep []).map Prod.fst).length =
          (List.foldl setentaStep [] pile).length := List.length_map _ _
      omega
    unfold calculateSetenta setentaSpec
    rw [if_pos hlt, if_neg (by
          rw [List.all_eq_true]
          push_neg
          refine ⟨s0, hs0mem, ?_⟩
          simpa [List.isEmpty_iff] using hs0)]

-- CLAIM THEOREMS

/-- The cards visible outside the deck: both hands, the table, both
piles (C1's claimed collection). -/
def visibleCards (g : GameState) : List Card :=
  g.Hands 0 ++ (g.Hands 1 ++ (g.TableCards ++ (g.Piles 0 ++ g.Piles 1)))

/-- C1 (counterexample): the claim says hands, table and piles alone
always hold exactly the 40 distinct cards; in the freshly constructed
game they hold only 10 (3 per hand, 4 on the table, empty piles) — the
other 30 cards are still in the deck. -/
theorem c1_counterexample :
    Reachable (New makeSpanishCards) ∧
    ¬ (visibleCards (New makeSpanishCards)).Perm makeSpanishCards := by
  constructor
  · exact .init makeSpanishCards (List.Perm.refl _)
  · intro h
    have hlen := h.length_eq
    have h10 : (visibleCards (New makeSpanishCards)).length = 10 := by decide
    rw [h10, makeSpanishCards_length] at hlen
    omega

/-- C1 (amended): for every reachable state, the union of both hands,
the table, both piles and the undealt remainder of the deck is exactly
the 40-card deck — 40 distinct cards, no duplicates, none absent. -/
theorem c1_card_conservation (g : GameState) (h : Reachable g) :
    (allCards g).Perm makeSpanishCards ∧ (allCards g).Nodup ∧
    (allCards g).length = 40 := by
  have hperm := (reachable_inv g h).1
  exact ⟨hperm, hperm.symm.nodup makeSpanishCards_nodup,
    by rw [hperm.length_eq, makeSpanishCards_length]⟩

theorem c1_card_conservation_witness :
    (allCards (New makeSpanishCards)).Perm makeSpanishCards ∧
    (allCards (New makeSpanishCards)).Nodup ∧
    (allCards (New makeSpanishCards)).length = 40 :=
  c1_card_conservation (New makeSpanishCards)
    (.init makeSpanishCards (List.Perm.refl _))

/-- C2: a throw action is possible exactly when the turn player's hand
holds the thrown card and either no capture is declared while the
combination search finds nothing, or the declared capture is non-empty,
sums to 15 minus the thrown value, and is consumed from the table with
multiplicity (a sub-multiset of the table). -/
theorem c2_isPossible_spec (a : ActionThrowCard) (g : GameState) :
    a.IsPossible g = true ↔
      a.ThrownCard ∈ g.Hands g.TurnPlayerID ∧
      ((a.CapturedTableCards = [] ∧
          findAllValidCombinations a.ThrownCard g.TableCards = []) ∨
       (a.CapturedTableCards ≠ [] ∧
          sumCards a.CapturedTableCards = 15 - a.ThrownCard.GetEscobaValue ∧
          List.Subperm a.CapturedTableCards g.TableCards)) :=
  isPossible_iff_decomp a g

/-- C5: the combination search returns exactly the sub-multisets of the
table (tracked by position: sublists) whose capture values sum to 15
minus the thrown card's value; it returns nothing when that target is
not positive; and the rank-7-versus-values-3-5-8 scenario yields exactly
the two expected captures. -/
theorem c5_combination_search_spec :
    (∀ (thrown : Card) (table : List Card), ValidCard thrown →
      (∀ c ∈ table, ValidCard c) →
      ∀ l, l ∈ findAllValidCombinations thrown table ↔
        (l.Sublist table ∧ sumCards l = 15 - thrown.GetEscobaValue)) ∧
    (∀ (thrown : Card) (table : List Card), 15 - thrown.GetEscobaValue ≤ 0 →
      findAllValidCombinations thrown table = []) ∧
    findAllValidCombinations (Card.mk ORO 7)
        [Card.mk COPA 3, Card.mk ESPADA 5, Card.mk BASTO 10] =
      [[Card.mk COPA 3, Card.mk ESPADA 5], [Card.mk BASTO 10]] := by
  refine ⟨?_, ?_, by decide⟩
  · intro thrown table hvt hvT l
    apply findAllValidCombinations_mem
    · exact fun c hc => (validCard_value_bounds c (hvT c hc)).1
    · have := (validCard_value_bounds thrown hvt).2
      omega
  · intro thrown table h
    exact findAllValidCombinations_empty_of_high thrown table h

theorem c5_combination_search_spec_witness :
    [Card.mk BASTO 10] ∈ findAllValidCombinations (Card.mk ORO 7)
        [Card.mk COPA 3, Card.mk ESPADA 5, Card.mk BASTO 10] ↔
      ([Card.mk BASTO 10].Sublist
          [Card.mk COPA 3, Card.mk ESPADA 5, Card.mk BASTO 10] ∧
       sumCards [Card.mk BASTO 10] = 15 - (Card.mk ORO 7).GetEscobaValue) :=
  c5_combination_search_spec.1 (Card.mk ORO 7)
    [Card.mk COPA 3, Card.mk ESPADA 5, Card.mk BASTO 10]
    (by simp only [ValidCard]; decide) (by simp only [ValidCard]; decide)
    [Card.mk BASTO 10]

/-- C8: submitting after the game ended yields errGameIsEnded, a failed
legality check yields errActionNotPossible, these are the only error
kinds, and once both checks pass the application itself always succeeds
(the embedding is all-or-nothing by construction: both error paths
return before any state change). -/
theorem c8_error_spec :
    (∀ (d : List Card) (a : ActionThrowCard) (g : GameState),
      g.IsEnded = true → RunAction d a g = .error .errGameIsEnded) ∧
    (∀ (d : List Card) (a : ActionThrowCard) (g : GameState),
      g.IsEnded = false → a.IsPossible g = false →
        RunAction d a g = .error .errActionNotPossible) ∧
    (∀ (d : List Card) (a : ActionThrowCard) (g : GameState),
      g.IsEnded = false → a.IsPossible g = true →
        ∃ g', RunAction d a g = .ok g') ∧
    (∀ e : EscobaError, e = .errGameIsEnded ∨ e = .errActionNotPossible) := by
  refine ⟨?_, ?_, ?_, ?_⟩
  · intro d a g h
    unfold RunAction
    rw [if_pos (by rw [h])]
  · intro d a g h hp
    unfold RunAction
    rw [if_neg (by simp [h]), if_pos (by simp [hp])]
  · intro d a g h hp
    unfold RunAction
    rw [if_neg (by simp [h]), if_neg (by simp [hp])]
    dsimp only
    split_ifs <;> exact ⟨_, rfl⟩
  · intro e
    cases e
    · exact Or.inl rfl
    · exact Or.inr rfl

/-- A minimal ended state used to witness the GameAlreadyEnded error. -/
def endedState : GameState :=
  ⟨0, 0, 0, fun _ => [], [], fun _ => [], fun _ => 0, fun _ => 0, [],
   false, false, true, -1, [], [], false, none, 0, false, []⟩

theorem c8_error_spec_witness :
    RunAction [] (newActionThrowCard (Card.mk ORO 1) []) endedState =
      .error .errGameIsEnded :=
  c8_error_spec.1 [] (newActionThrowCard (Card.mk ORO 1) []) endedState rfl

/-- C10: every freshly constructed game has player 0 as mano (dealer),
as default last capturer and as first to act in round 1, for every deck
the constructor is given — the choice is fixed, never randomized. -/
theorem c10_new_initial_dealer (d : List Card) :
    (New d).RoundTurnPlayerID = 0 ∧ (New d).TurnPlayerID = 0 ∧
    (New d).LastCapturerPlayerID = 0 ∧ (New d).RoundNumber = 1 := by
  unfold New startNewSet
  dsimp only
  obtain ⟨hturn, hrt, hrn, hie, hsf, hrf, hH0, hH1, hlc⟩ := startNewRoundDeal_fields _
  refine ⟨?_, ?_, ?_, ?_⟩
  · rw [hrt]
    simp [bumpRound]
  · rw [hturn]
    simp [bumpRound]
  · rcases hlc with hlc | hlc <;> rw [hlc] <;> simp [bumpRound]
  · rw [hrn]
    simp [bumpRound]

theorem removeCardsFromTable_eq_filter (table rm : List Card)
    (hnd : table.Nodup) :
    removeCardsFromTable table rm = table.filter (fun c => c ∉ rm) := by
  unfold removeCardsFromTable
  rw [List.dedup_eq_self.mpr hnd]

/-- Last capturer and escoba bookkeeping of a capturing run. -/
theorem run_proj_capture (a : ActionThrowCard) (g : GameState)
    (h : 0 < a.CapturedTableCards.length) :
    (a.Run g).LastCapturerPlayerID = g.TurnPlayerID ∧
    (a.Run g).Escobas =
      (if (removeCardsFromTable g.TableCards
            (a.CapturedTableCards ++ [a.ThrownCard])).isEmpty
          && !a.CapturedTableCards.isEmpty then
        Function.update g.Escobas g.TurnPlayerID (g.Escobas g.TurnPlayerID + 1)
      else g.Escobas) := by
  unfold ActionThrowCard.Run
  dsimp only
  rw [if_pos h]
  split_ifs <;> simp_all

/-- Last capturer and escoba bookkeeping of a plain discard. -/
theorem run_proj_discard (a : ActionThrowCard) (g : GameState)
    (h : ¬0 < a.CapturedTableCards.length) :
    (a.Run g).LastCapturerPlayerID = g.LastCapturerPlayerID ∧
    (a.Run g).Escobas = g.Escobas := by
  unfold ActionThrowCard.Run
  dsimp only
  rw [if_neg h]
  exact ⟨rfl, rfl⟩

/-- C3: a validated throw removes the thrown card from the acting hand;
with a declared capture it moves the captured cards plus the thrown card
to the pile, removes exactly the captured cards from the table (the
thrown card never reaches the table), marks the player last capturer,
and bumps the escoba count exactly when the capture empties a previously
non-empty table; with no capture it merely appends the thrown card to
the table. -/
theorem c3_run_spec (a : ActionThrowCard) (g : GameState)
    (hposs : a.IsPossible g = true)
    (hnd : g.TableCards.Nodup) (hthr : a.ThrownCard ∉ g.TableCards) :
    (a.Run g).Hands g.TurnPlayerID =
      (g.Hands g.TurnPlayerID).erase a.ThrownCard ∧
    (a.CapturedTableCards ≠ [] →
      (a.Run g).Piles g.TurnPlayerID =
        g.Piles g.TurnPlayerID ++ (a.CapturedTableCards ++ [a.ThrownCard]) ∧
      (a.Run g).TableCards =
        g.TableCards.filter (fun c => c ∉ a.CapturedTableCards) ∧
      a.ThrownCard ∉ (a.Run g).TableCards ∧
      (a.Run g).LastCapturerPlayerID = g.TurnPlayerID ∧
      (a.Run g).Escobas g.TurnPlayerID =
        g.Escobas g.TurnPlayerID +
          (if (a.Run g).TableCards = [] ∧ g.TableCards ≠ [] then 1 else 0)) ∧
    (a.CapturedTableCards = [] →
      (a.Run g).TableCards = g.TableCards ++ [a.ThrownCard] ∧
      (a.Run g).Piles = g.Piles ∧
      (a.Run g).LastCapturerPlayerID = g.LastCapturerPlayerID ∧
      (a.Run g).Escobas = g.Escobas) := by
  obtain ⟨-, -, -, -, -, hHands⟩ := run_effects a g
  obtain ⟨hPiles, hTable⟩ := run_proj a g
  obtain ⟨hmem, hcapd⟩ := (isPossible_iff_decomp a g).mp hposs
  refine ⟨by rw [hHands, Function.update_same], ?_, ?_⟩
  · intro hne
    have hlen : 0 < a.CapturedTableCards.length := by
      cases hc : a.CapturedTableCards with
      | nil => exact absurd hc hne
      | cons x xs => simp [hc]
    have hsubp : List.Subperm a.CapturedTableCards g.TableCards := by
      rcases hcapd with ⟨h1, -⟩ | ⟨-, -, h3⟩
      · exact absurd h1 hne
      · exact h3
    rw [if_pos hlen] at hPiles hTable
    obtain ⟨hlc, hesc⟩ := run_proj_capture a g hlen
    have hfe : removeCardsFromTable g.TableCards
        (a.CapturedTableCards ++ [a.ThrownCard]) =
        g.TableCards.filter (fun c => c ∉ a.CapturedTableCards) := by
      rw [removeCardsFromTable_eq_filter _ _ hnd]
      apply List.filter_congr
      intro c hc
      have hct : c ≠ a.ThrownCard := fun h => hthr (h ▸ hc)
      simp [hct]
    refine ⟨by rw [hPiles, Function.update_same], by rw [hTable, hfe], ?_, hlc, ?_⟩
    · rw [hTable, hfe]
      intro hmemf
      exact hthr (List.mem_of_mem_filter hmemf)
    · have htne : g.TableCards ≠ [] := by
        cases hc : a.CapturedTableCards with
        | nil => exact absurd hc hne
        | cons x xs =>
            have hx : x ∈ g.TableCards := hsubp.subset (hc ▸ List.mem_cons_self x xs)
            intro ht
            rw [ht] at hx
            exact absurd hx (List.not_mem_nil x)
      rw [hesc]
      by_cases hemp : (removeCardsFromTable g.TableCards
          (a.CapturedTableCards ++ [a.ThrownCard])).isEmpty = true
      · rw [if_pos (by simp [hemp, hne])]
        rw [Function.update_same]
        rw [if_pos ⟨by rw [hTable]; exact List.isEmpty_iff.mp hemp, htne⟩]
      · rw [if_neg (by simp [hemp])]
        rw [if_neg (by
              rintro ⟨h1, -⟩
              rw [hTable] at h1
              exact hemp (by simp [List.isEmpty_iff, h1]))]
        simp
  · intro hnil
    have hlen : ¬0 < a.CapturedTableCards.length := by simp [hnil]
    rw [if_neg hlen] at hPiles hTable
    obtain ⟨hlc, hesc⟩ := run_proj_discard a g hlen
    exact ⟨hTable, hPiles, hlc, hesc⟩

/-- A mid-round position used to witness the run specification: player 0
holds the 7 of oro, the table shows values 3, 5 and 8. -/
def c3SampleState : GameState :=
  ⟨0, 1, 0, (fun i => if i = 0 then [Card.mk ORO 7] else [Card.mk COPA 1]),
   [Card.mk COPA 3, Card.mk ESPADA 5, Card.mk BASTO 10],
   fun _ => [], fun _ => 0, fun _ => 0, [],
   false, false, false, -1, [], [], false, none, 0, false, []⟩

/-- Capturing the value-8 card with the 7 of oro. -/
def c3SampleAction : ActionThrowCard :=
  ⟨THROW_CARD, Card.mk ORO 7, [Card.mk BASTO 10]⟩

theorem c3_run_spec_witness :
    (c3SampleAction.Run c3SampleState).Hands c3SampleState.TurnPlayerID =
      (c3SampleState.Hands c3SampleState.TurnPlayerID).erase
        c3SampleAction.ThrownCard :=
  (c3_run_spec c3SampleAction c3SampleState (by decide) (by decide)
    (by decide)).1

/-- Every element of the DFS result extends the accumulated combination,
strictly so when the target is non-zero. -/
theorem findCombinationsDFS_mem_shape (targetSum : Int) (cards : List Card)
    (cur l : List Card) (hl : l ∈ findCombinationsDFS targetSum cards cur) :
    ∃ s, l = cur ++ s ∧ (targetSum ≠ 0 → s ≠ []) := by
  induction cards generalizing targetSum cur with
  | nil =>
      unfold findCombinationsDFS at hl
      split_ifs at hl with h0 hneg
      · simp only [List.mem_singleton] at hl
        exact ⟨[], by simp [hl], fun h => absurd h0 h⟩
      · simp at hl
      · simp at hl
  | cons c rest ih =>
      unfold findCombinationsDFS at hl
      split_ifs at hl with h0 hneg
      · simp only [List.mem_singleton] at hl
        exact ⟨[], by simp [hl], fun h => absurd h0 h⟩
      · simp at hl
      · rw [List.mem_append] at hl
        rcases hl with hl | hl
        · obtain ⟨s, hs, -⟩ := ih _ _ hl
          exact ⟨c :: s, by simpa using hs, fun _ => by simp⟩
        · obtain ⟨s, hs, himp⟩ := ih _ _ hl
          exact ⟨s, hs, himp⟩

/-- No combination returned by the search is empty: the target is at
least 1 whenever the search runs at all. -/
theorem mem_findAllValidCombinations_ne_nil (thrown : Card)
    (table l : List Card) (h : l ∈ findAllValidCombinations thrown table) :
    l ≠ [] := by
  unfold findAllValidCombinations at h
  dsimp only at h
  split_ifs at h with hge
  · simp at h
  · obtain ⟨s, hs, himp⟩ := findCombinationsDFS_mem_shape _ _ _ _ h
    rw [hs]
    simpa using himp (by omega)

/-- C4: whenever some hand card has a valid combination, the legal
actions are exactly one capture per (hand card, combination) pair and no
bare discard appears; only when no hand card has any combination are the
legal actions exactly one capture-free discard per hand card; and in any
reachable non-ended state the list is non-empty. -/
theorem c4_possible_actions_spec :
    (∀ g : GameState, Reachable g → g.IsEnded = false →
      CalculatePossibleActions g ≠ []) ∧
    (∀ g : GameState,
      (∃ c ∈ g.Hands g.TurnPlayerID,
        findAllValidCombinations c g.TableCards ≠ []) →
      CalculatePossibleActions g =
        (g.Hands g.TurnPlayerID).flatMap (fun card =>
          (findAllValidCombinations card g.TableCards).map
            (fun combination => newActionThrowCard card combination)) ∧
      ∀ act ∈ CalculatePossibleActions g, act.CapturedTableCards ≠ []) ∧
    (∀ g : GameState,
      (∀ c ∈ g.Hands g.TurnPlayerID,
        findAllValidCombinations c g.TableCards = []) →
      CalculatePossibleActions g =
        (g.Hands g.TurnPlayerID).map (fun card => newActionThrowCard card [])) := by
  have hflat : ∀ g : GameState,
      ((g.Hands g.TurnPlayerID).flatMap (fun card =>
        (findAllValidCombinations card g.TableCards).map
          (fun combination => newActionThrowCard card combination))) = [] ↔
      ∀ c ∈ g.Hands g.TurnPlayerID,
        findAllValidCombinations c g.TableCards = [] := by
    intro g
    rw [List.flatMap_eq_nil_iff]
    constructor
    · intro h c hc
      have := h c hc
      simpa using this
    · intro h c hc
      simp [h c hc]
  refine ⟨?_, ?_, ?_⟩
  · intro g hreach hie
    have hhand : g.Hands g.TurnPlayerID ≠ [] := by
      obtain ⟨-, hclause⟩ := reachable_inv g hreach
      obtain ⟨-, -, hlen, -⟩ := hclause hie
      intro h
      rw [h] at hlen
      simp at hlen
    unfold CalculatePossibleActions
    dsimp only
    split_ifs with hemp
    · simpa using hhand
    · simpa [List.isEmpty_iff] using hemp
  · intro g hex
    have hne : ¬((g.Hands g.TurnPlayerID).flatMap (fun card =>
        (findAllValidCombinations card g.TableCards).map
          (fun combination => newActionThrowCard card combination))) = [] := by
      rw [hflat g]
      push_neg
      exact hex
    have heq : CalculatePossibleActions g =
        (g.Hands g.TurnPlayerID).flatMap (fun card =>
          (findAllValidCombinations card g.TableCards).map
            (fun combination => newActionThrowCard card combination)) := by
      unfold CalculatePossibleActions
      dsimp only
      rw [if_neg (by simpa [List.isEmpty_iff] using hne)]
    refine ⟨heq, ?_⟩
    intro act hact
    rw [heq, List.mem_flatMap] at hact
    obtain ⟨card, -, hact⟩ := hact
    rw [List.mem_map] at hact
    obtain ⟨combination, hcomb, rfl⟩ := hact
    exact mem_findAllValidCombinations_ne_nil card g.TableCards combination hcomb
  · intro g hall
    unfold CalculatePossibleActions
    dsimp only
    rw [if_pos (by rw [List.isEmpty_iff, hflat g]; exact hall)]

theorem c4_possible_actions_spec_witness :
    CalculatePossibleActions (New makeSpanishCards) ≠ [] :=
  c4_possible_actions_spec.1 (New makeSpanishCards)
    (.init makeSpanishCards (List.Perm.refl _)) (by decide)

/-- A position about to start its second round: the mano is player 0 but
the turn currently sits with player 1; 6 cards remain undealt. -/
def c7SampleState : GameState :=
  ⟨0, 1, 1, fun _ => [], [], fun _ => [], fun _ => 0, fun _ => 0, [],
   false, false, false, -1, [], [], false, none, 0, false,
   [Card.mk ORO 1, Card.mk ORO 2, Card.mk ORO 3,
    Card.mk COPA 1, Card.mk COPA 2, Card.mk COPA 3]⟩

/-- C7 (counterexample): the claim says the turn is set to the dealer
only on the very first round of the set, but startNewRound assigns the
turn to the mano unconditionally: starting round 2 from a state where
player 1 holds the turn moves the turn back to dealer 0. -/
theorem c7_counterexample :
    (startNewRound [] c7SampleState).RoundNumber = 2 ∧
    c7SampleState.TurnPlayerID = 1 ∧
    c7SampleState.RoundTurnPlayerID = 0 ∧
    (startNewRound [] c7SampleState).TurnPlayerID = 0 := by decide

/-- C7 (amended): at every round start the round number is incremented
and the turn is handed to the dealer (not only on the set's first
round); with at least 6 cards both players are dealt 3 cards; with fewer
the set is marked finished and scored directly; on round 1 only, 4 table
cards are dealt and, when they sum to 15, the dealer immediately
receives them as pile capture plus one escoba and is recorded last
capturer, leaving the table empty; on later rounds the table, piles and
escobas are untouched. -/
theorem c7_startNewRound_spec (d : List Card) (g : GameState)
    (htab : g.RoundNumber = 0 → g.TableCards = []) :
    (6 ≤ g.deck.length →
      (startNewRound d g).RoundNumber = g.RoundNumber + 1 ∧
      (startNewRound d g).TurnPlayerID = g.RoundTurnPlayerID ∧
      (startNewRound d g).Hands 0 = g.deck.take 3 ∧
      (startNewRound d g).Hands 1 = (g.deck.drop 3).take 3 ∧
      ((startNewRound d g).Hands 0).length = 3 ∧
      ((startNewRound d g).Hands 1).length = 3 ∧
      (g.RoundNumber = 0 →
        (sumCards (((g.deck.drop 3).drop 3).take 4) = 15 →
          (startNewRound d g).TableCards = [] ∧
          (startNewRound d g).Piles g.RoundTurnPlayerID =
            g.Piles g.RoundTurnPlayerID ++ ((g.deck.drop 3).drop 3).take 4 ∧
          (startNewRound d g).Escobas g.RoundTurnPlayerID =
            g.Escobas g.RoundTurnPlayerID + 1 ∧
          (startNewRound d g).LastCapturerPlayerID = g.RoundTurnPlayerID) ∧
        (sumCards (((g.deck.drop 3).drop 3).take 4) ≠ 15 →
          (startNewRound d g).TableCards = ((g.deck.drop 3).drop 3).take 4 ∧
          (startNewRound d g).Escobas = g.Escobas)) ∧
      (g.RoundNumber ≠ 0 →
        (startNewRound d g).TableCards = g.TableCards ∧
        (startNewRound d g).Escobas = g.Escobas ∧
        (startNewRound d g).Piles = g.Piles)) ∧
    (g.deck.length < 6 →
      startNewRound d g = scoreSet d { bumpRound g with SetFinished := true }) := by
  unfold startNewRound bumpRound
  dsimp only
  split_ifs with h6
  · refine ⟨?_, fun hlt => absurd (show 6 ≤ g.deck.length from h6) (by omega)⟩
    intro _
    unfold startNewRoundDeal
    dsimp only
    have hup0 : ∀ (h0 h1 : List Card),
        Function.update (Function.update g.Hands 0 h0) 1 h1 0 = h0 := by
      intro h0 h1
      rw [Function.update_noteq (by decide), Function.update_same]
    have hup1 : ∀ (h0 h1 : List Card),
        Function.update (Function.update g.Hands 0 h0) 1 h1 1 = h1 := by
      intro h0 h1
      rw [Function.update_same]
    split_ifs with hr1 hsum
    · have h0 : g.RoundNumber = 0 := by omega
      rw [htab h0] at hsum ⊢
      refine ⟨rfl, rfl, by simp only [hup0], by simp only [hup1],
        by simp only [hup0]; simp [List.length_take]; omega,
        by simp only [hup1]; simp [List.length_take, List.length_drop]; omega, ?_, ?_⟩
      · intro _
        constructor
        · intro _
          refine ⟨rfl, ?_, by simp only [Function.update_same], rfl⟩
          simp only [Function.update_same]
          simp
        · intro hne
          exact absurd (by simpa using hsum) hne
      · intro hne
        exact absurd h0 hne
    · have h0 : g.RoundNumber = 0 := by omega
      rw [htab h0] at hsum ⊢
      refine ⟨rfl, rfl, by simp only [hup0], by simp only [hup1],
        by simp only [hup0]; simp [List.length_take]; omega,
        by simp only [hup1]; simp [List.length_take, List.length_drop]; omega, ?_, ?_⟩
      · intro _
        constructor
        · intro hs
          exact absurd hs (by simpa using hsum)
        · intro _
          exact ⟨by simp, rfl⟩
      · intro hne
        exact absurd h0 hne
    · have h0 : g.RoundNumber ≠ 0 := by omega
      refine ⟨rfl, rfl, by simp only [hup0], by simp only [hup1],
        by simp only [hup0]; simp [List.length_take]; omega,
        by simp only [hup1]; simp [List.length_take, List.length_drop]; omega, ?_, ?_⟩
      · intro hz
        exact absurd hz h0
      · intro _
        exact ⟨rfl, rfl, rfl⟩
  · exact ⟨fun h => absurd h (show ¬6 ≤ g.deck.length from h6), fun _ => rfl⟩

theorem c7_startNewRound_spec_witness :
    (startNewRound [] c7SampleState).RoundNumber =
      c7SampleState.RoundNumber + 1 :=
  ((c7_startNewRound_spec [] c7SampleState
    (fun h => absurd h (by decide))).1 (by decide)).1

-- C6 SUPPORT

/-- The piles after awarding remaining table cards to the last capturer
(the specification's phrasing of the first scoring step). -/
def pilesAfterAward (g : GameState) : Fin 2 → List Card :=
  fun i => if i = g.LastCapturerPlayerID then g.Piles i ++ g.TableCards
           else g.Piles i

/-- Number of oro-suit cards in a pile. -/
def oroCount (pile : List Card) : Nat :=
  (pile.filter (fun c => c.Suit = ORO)).length

/-- The special card: the 7 of oro. -/
def sieteDeOro : Card := Card.mk ORO 7

/-- Points awarded to one player per the specification: one per escoba,
one for strictly more captured cards, one for strictly more oro cards,
one for holding the 7 of oro, one for the strictly higher positive
setenta score. -/
def pointsSpec (g : GameState) (i : Fin 2) : Nat :=
  g.Escobas i
  + (if (pilesAfterAward g (opponentOf i)).length <
        (pilesAfterAward g i).length then 1 else 0)
  + (if oroCount (pilesAfterAward g (opponentOf i)) <
        oroCount (pilesAfterAward g i) then 1 else 0)
  + (if sieteDeOro ∈ pilesAfterAward g i then 1 else 0)
  + (if setentaSpec (pilesAfterAward g (opponentOf i)) <
          setentaSpec (pilesAfterAward g i) ∧
        0 < setentaSpec (pilesAfterAward g i) then 1 else 0)

theorem awardTable_piles (g : GameState) :
    (awardTable g).Piles = pilesAfterAward g := by
  unfold awardTable pilesAfterAward
  split_ifs with ht
  · funext i
    dsimp only
    rw [Function.update_apply]
    split_ifs with hi
    · rw [hi]
    · rfl
  · have htab : g.TableCards = [] := List.length_eq_zero.mp (by omega)
    funext i
    split_ifs <;> simp [htab]

theorem awardTable_fields (g : GameState) :
    (awardTable g).Scores = g.Scores ∧ (awardTable g).Escobas = g.Escobas ∧
    (awardTable g).IsEnded = g.IsEnded ∧
    (awardTable g).RoundTurnPlayerID = g.RoundTurnPlayerID := by
  unfold awardTable
  split_ifs <;> exact ⟨rfl, rfl, rfl, rfl⟩

theorem any_siete_iff (pile : List Card) :
    (pile.any (fun c => c.Suit = ORO && c.Number = 7) = true) ↔
      sieteDeOro ∈ pile := by
  rw [List.any_eq_true]
  constructor
  · rintro ⟨c, hc, hcs⟩
    obtain ⟨s, n⟩ := c
    simp only [Bool.and_eq_true, decide_eq_true_eq] at hcs
    have : Card.mk s n = sieteDeOro := by
      unfold sieteDeOro
      rw [Card.mk.injEq]
      exact ⟨hcs.1, hcs.2⟩
    exact this ▸ hc
  · intro h
    exact ⟨sieteDeOro, h, by decide⟩

/-- Fields established by starting a new set, regardless of the deck. -/
theorem startNewSet_fields (d : List Card) (g : GameState) :
    (startNewSet d g).RoundTurnPlayerID = g.RoundTurnPlayerID ∧
    (startNewSet d g).SetJustStarted = true ∧
    (startNewSet d g).RoundNumber = 1 ∧
    (startNewSet d g).Scores = g.Scores ∧
    (startNewSet d g).IsEnded = g.IsEnded ∧
    (startNewSet d g).LastCapturerPlayerID = g.RoundTurnPlayerID := by
  unfold startNewSet bumpRound startNewRoundDeal
  dsimp only
  split_ifs <;> exact ⟨rfl, rfl, rfl, rfl, rfl, rfl⟩

theorem any_siete_eq (pile : List Card) :
    (pile.any (fun c => c.Suit = ORO && c.Number = 7)) =
      decide (sieteDeOro ∈ pile) := by
  by_cases hm : sieteDeOro ∈ pile
  · rw [(any_siete_iff _).mpr hm, decide_eq_true hm]
  · have h1 : (pile.any (fun c => c.Suit = ORO && c.Number = 7)) = false := by
      rcases hb : pile.any (fun c => c.Suit = ORO && c.Number = 7) with - | -
      · rfl
      · exact absurd ((any_siete_iff _).mp hb) hm
    rw [h1, decide_eq_false hm]

/-- The point computation of scoreSet agrees with the specification's
point formula whenever the awarded piles hold real cards and the 7 of
oro sits in at most one pile. -/
theorem computeSetResult_points (g : GameState)
    (hvalid : ∀ i, ∀ c ∈ pilesAfterAward g i, ValidCard c)
    (hsiete : ¬(sieteDeOro ∈ pilesAfterAward g 0 ∧
                sieteDeOro ∈ pilesAfterAward g 1)) :
    ∀ i, (computeSetResult (fun j => g.Escobas j) (awardTable g)).PointsAwarded i =
      pointsSpec g i := by
  intro i
  unfold computeSetResult
  dsimp only
  rw [awardTable_piles]
  have hset : ∀ j : Fin 2, calculateSetenta (pilesAfterAward g j) =
      setentaSpec (pilesAfterAward g j) :=
    fun j => calculateSetenta_eq_spec _ (hvalid j)
  rcases fin2_eq_zero_or_one i with hi | hi <;> subst hi
  · rw [if_pos rfl]
    unfold pointsSpec oroCount
    rw [opponentOf_zero, hset 0, hset 1]
    have hs : (if ((pilesAfterAward g 0).any
          (fun c => c.Suit = ORO && c.Number = 7)) = true then 1 else 0) =
        (if sieteDeOro ∈ pilesAfterAward g 0 then 1 else 0) := by
      by_cases hm : sieteDeOro ∈ pilesAfterAward g 0
      · rw [(any_siete_iff _).mpr hm, if_pos rfl, if_pos hm]
      · have hc : ((pilesAfterAward g 0).any
            (fun c => c.Suit = ORO && c.Number = 7)) = false := by
          rw [any_siete_eq, decide_eq_false hm]
        rw [hc, if_neg (by simp), if_neg hm]
    rw [hs]
  · rw [if_neg (by decide)]
    unfold pointsSpec oroCount
    rw [opponentOf_one, hset 0, hset 1]
    have hs : (if (!(pilesAfterAward g 0).any
            (fun c => c.Suit = ORO && c.Number = 7) &&
          (pilesAfterAward g 1).any
            (fun c => c.Suit = ORO && c.Number = 7)) = true then 1 else 0) =
        (if sieteDeOro ∈ pilesAfterAward g 1 then 1 else 0) := by
      by_cases hm1 : sieteDeOro ∈ pilesAfterAward g 1
      · have hm0 : sieteDeOro ∉ pilesAfterAward g 0 := fun h0 => hsiete ⟨h0, hm1⟩
        have hc : (!(pilesAfterAward g 0).any
              (fun c => c.Suit = ORO && c.Number = 7) &&
            (pilesAfterAward g 1).any
              (fun c => c.Suit = ORO && c.Number = 7)) = true := by
          rw [any_siete_eq, any_siete_eq, decide_eq_true hm1, decide_eq_false hm0]
          rfl
        rw [hc, if_pos rfl, if_pos hm1]
      · have hc : (!(pilesAfterAward g 0).any
              (fun c => c.Suit = ORO && c.Number = 7) &&
            (pilesAfterAward g 1).any
              (fun c => c.Suit = ORO && c.Number = 7)) = false := by
          rw [any_siete_eq, any_siete_eq, decide_eq_false hm1]
          simp
        rw [hc, if_neg (by simp), if_neg hm1]
    rw [hs]
/-- C6: scoring first awards leftover table cards to the last capturer
(the dealer by default: every set start records the mano as last
capturer), then adds to each cumulative score one point per escoba plus
the strict-comparison category points (more cards, more oro cards, the 7
of oro, higher positive setenta, where setenta is the per-suit-maximum
sum that vanishes unless all four suits are represented); the game then
ends exactly when some cumulative score reaches 15, the strictly higher
score winning and equality drawing, and otherwise the dealer rotates and
a new set begins. -/
theorem c6_scoreSet_spec (d : List Card) (g : GameState)
    (hie : g.IsEnded = false)
    (hvalid : ∀ i, ∀ c ∈ pilesAfterAward g i, ValidCard c)
    (hsiete : ¬(sieteDeOro ∈ pilesAfterAward g 0 ∧
                sieteDeOro ∈ pilesAfterAward g 1)) :
    (∀ i, (scoreSet d g).Scores i = g.Scores i + pointsSpec g i) ∧
    ((scoreSet d g).IsEnded = true ↔
      15 ≤ g.Scores 0 + pointsSpec g 0 ∨ 15 ≤ g.Scores 1 + pointsSpec g 1) ∧
    ((15 ≤ g.Scores 0 + pointsSpec g 0 ∨ 15 ≤ g.Scores 1 + pointsSpec g 1) →
      (scoreSet d g).WinnerPlayerID =
        (if g.Scores 1 + pointsSpec g 1 < g.Scores 0 + pointsSpec g 0 then 0
         else if g.Scores 0 + pointsSpec g 0 < g.Scores 1 + pointsSpec g 1
         then 1 else -1)) ∧
    (¬(15 ≤ g.Scores 0 + pointsSpec g 0 ∨ 15 ≤ g.Scores 1 + pointsSpec g 1) →
      (scoreSet d g).RoundTurnPlayerID = opponentOf g.RoundTurnPlayerID ∧
      (scoreSet d g).SetJustStarted = true ∧
      (scoreSet d g).RoundNumber = 1) ∧
    (∀ pile, (∀ c ∈ pile, ValidCard c) →
      calculateSetenta pile = setentaSpec pile) ∧
    (∀ (d2 : List Card) (g2 : GameState),
      (startNewSet d2 g2).LastCapturerPlayerID = g2.RoundTurnPlayerID) := by
  obtain ⟨hSc, hEs, hIe, hRt⟩ := awardTable_fields g
  have hpts := computeSetResult_points g hvalid hsiete
  have hS : ∀ i, (awardTable g).Scores i +
      (computeSetResult (fun j => g.Escobas j) (awardTable g)).PointsAwarded i =
      g.Scores i + pointsSpec g i := by
    intro i
    rw [hSc, hpts i]
  unfold scoreSet
  dsimp only
  have hcond : ((decide (15 ≤ (awardTable g).Scores 0 +
        (computeSetResult (fun i => g.Escobas i) (awardTable g)).PointsAwarded 0) ||
      decide (15 ≤ (awardTable g).Scores 1 +
        (computeSetResult (fun i => g.Escobas i) (awardTable g)).PointsAwarded 1)) = true) ↔
      (15 ≤ g.Scores 0 + pointsSpec g 0 ∨ 15 ≤ g.Scores 1 + pointsSpec g 1) := by
    rw [hS 0, hS 1]
    simp
  by_cases hend : (15 ≤ g.Scores 0 + pointsSpec g 0 ∨
      15 ≤ g.Scores 1 + pointsSpec g 1)
  · rw [if_pos (hcond.mpr hend)]
    refine ⟨fun i => hS i, iff_of_true rfl hend, ?_, fun h => absurd hend h,
      fun pile hv => calculateSetenta_eq_spec pile hv,
      fun d2 g2 => (startNewSet_fields d2 g2).2.2.2.2.2⟩
    intro _
    rw [hS 0, hS 1]
  · rw [if_neg (fun hh => hend (hcond.mp hh))]
    obtain ⟨hf1, hf2, hf3, hf4, hf5, -⟩ := startNewSet_fields d
      { awardTable g with
        Scores := fun i => (awardTable g).Scores i +
          (computeSetResult (fun j => g.Escobas j) (awardTable g)).PointsAwarded i,
        LastSetResults := some (computeSetResult (fun j => g.Escobas j) (awardTable g)),
        RoundTurnPlayerID := opponentOf (awardTable g).RoundTurnPlayerID }
    refine ⟨?_, ?_, fun h => absurd h hend, fun _ => ⟨?_, ?_, ?_⟩,
      fun pile hv => calculateSetenta_eq_spec pile hv,
      fun d2 g2 => (startNewSet_fields d2 g2).2.2.2.2.2⟩
    · intro i
      rw [hf4]
      exact hS i
    · rw [hf5]
      rw [show ({ awardTable g with
        Scores := fun i => (awardTable g).Scores i +
          (computeSetResult (fun j => g.Escobas j) (awardTable g)).PointsAwarded i,
        LastSetResults := some (computeSetResult (fun j => g.Escobas j) (awardTable g)),
        RoundTurnPlayerID := opponentOf (awardTable g).RoundTurnPlayerID } :
          GameState).IsEnded = g.IsEnded from hIe]
      rw [hie]
      exact iff_of_false (by simp) hend
    · rw [hf1]
      rw [show ({ awardTable g with
        Scores := fun i => (awardTable g).Scores i +
          (computeSetResult (fun j => g.Escobas j) (awardTable g)).PointsAwarded i,
        LastSetResults := some (computeSetResult (fun j => g.Escobas j) (awardTable g)),
        RoundTurnPlayerID := opponentOf (awardTable g).RoundTurnPlayerID } :
          GameState).RoundTurnPlayerID =
        opponentOf (awardTable g).RoundTurnPlayerID from rfl]
      rw [hRt]
    · exact hf2
    · exact hf3

/-- A set-end position used to witness the scoring specification. -/
def c6SampleState : GameState :=
  ⟨0, 7, 0, fun _ => [], [], fun _ => [], fun _ => 0, fun _ => 0, [],
   false, true, false, -1, [], [], false, none, 0, false, []⟩

theorem c6_scoreSet_spec_witness :
    (scoreSet [] c6SampleState).Scores 0 =
      c6SampleState.Scores 0 + pointsSpec c6SampleState 0 :=
  (c6_scoreSet_spec [] c6SampleState rfl (by simp only [ValidCard]; decide)
    (by decide)).1 0

-- C9: GAME-STATE SERIALIZATION.  json.Marshal writes the exported
-- fields in struct order under their json tags (the deck field is
-- tagged "-" and is skipped); maps keyed by the player ids appear as
-- objects with keys "0" and "1"; json.RawMessage fields re-emit their
-- stored JSON unchanged.  The decoder reconstructs a GameState from a
-- snapshot in that canonical shape; the unexported deck comes back as
-- its zero value (the empty list), exactly as json.Unmarshal leaves it.

/-- A player id on the wire: its numeric value. -/
def encodeFin (i : Fin 2) : Json := .jnum (i.val : Int)

def decodeFin (j : Json) : Except String (Fin 2) :=
  match j with
  | .jnum n => if n = 0 then .ok 0 else if n = 1 then .ok 1 else .error "bad id"
  | _ => .error "bad id"

def decodeNat (j : Json) : Except String Nat :=
  match j with
  | .jnum n => .ok n.toNat
  | _ => .error "bad number"

def decodeInt (j : Json) : Except String Int :=
  match j with
  | .jnum n => .ok n
  | _ => .error "bad number"

def decodeBool (j : Json) : Except String Bool :=
  match j with
  | .jbool b => .ok b
  | _ => .error "bad bool"

/-- Two-slot map builder used when decoding the player-indexed maps. -/
def mkFin2 {α : Type} (a b : α) : Fin 2 → α := fun i => if i = 0 then a else b

theorem mkFin2_eta {α : Type} (f : Fin 2 → α) : mkFin2 (f 0) (f 1) = f := by
  funext i
  rcases fin2_eq_zero_or_one i with h | h <;> subst h <;> simp [mkFin2]

/-- A Hand marshals as an object with a "cards" array (deck.go). -/
def encodeHand (h : List Card) : Json :=
  .jobj [("cards", .jarr (h.map encodeCard))]

def decodeHand (j : Json) : Except String (List Card) :=
  match j with
  | .jobj [("cards", .jarr js)] => decodeCardList js
  | _ => .error "bad hand"

def encodeHands (h : Fin 2 → List Card) : Json :=
  .jobj [("0", encodeHand (h 0)), ("1", encodeHand (h 1))]

def decodeHands (j : Json) : Except String (Fin 2 → List Card) :=
  match j with
  | .jobj [("0", j0), ("1", j1)] => do
      let h0 ← decodeHand j0
      let h1 ← decodeHand j1
      .ok (mkFin2 h0 h1)
  | _ => .error "bad hands"

def encodeCardsMap (p : Fin 2 → List Card) : Json :=
  .jobj [("0", .jarr ((p 0).map encodeCard)), ("1", .jarr ((p 1).map encodeCard))]

def decodeCardsMap (j : Json) : Except String (Fin 2 → List Card) :=
  match j with
  | .jobj [("0", .jarr j0), ("1", .jarr j1)] => do
      let p0 ← decodeCardList j0
      let p1 ← decodeCardList j1
      .ok (mkFin2 p0 p1)
  | _ => .error "bad card map"

def encodeNatMap (m : Fin 2 → Nat) : Json :=
  .jobj [("0", .jnum (m 0 : Int)), ("1", .jnum (m 1 : Int))]

def decodeNatMap (j : Json) : Except String (Fin 2 → Nat) :=
  match j with
  | .jobj [("0", j0), ("1", j1)] => do
      let n0 ← decodeNat j0
      let n1 ← decodeNat j1
      .ok (mkFin2 n0 n1)
  | _ => .error "bad nat map"

def encodeIntMap (m : Fin 2 → Int) : Json :=
  .jobj [("0", .jnum (m 0)), ("1", .jnum (m 1))]

def decodeIntMap (j : Json) : Except String (Fin 2 → Int) :=
  match j with
  | .jobj [("0", j0), ("1", j1)] => do
      let n0 ← decodeInt j0
      let n1 ← decodeInt j1
      .ok (mkFin2 n0 n1)
  | _ => .error "bad int map"

def encodeBoolMap (m : Fin 2 → Bool) : Json :=
  .jobj [("0", .jbool (m 0)), ("1", .jbool (m 1))]

def decodeBoolMap (j : Json) : Except String (Fin 2 → Bool) :=
  match j with
  | .jobj [("0", j0), ("1", j1)] => do
      let b0 ← decodeBool j0
      let b1 ← decodeBool j1
      .ok (mkFin2 b0 b1)
  | _ => .error "bad bool map"

def encodeFinList (l : List (Fin 2)) : Json := .jarr (l.map encodeFin)

def decodeFinList (js : List Json) : Except String (List (Fin 2)) :=
  match js with
  | [] => .ok []
  | j :: rest => do
      let i ← decodeFin j
      let is ← decodeFinList rest
      .ok (i :: is)

/-- SetResult marshals with its six maps in struct order (part_003). -/
def encodeSetResult (r : SetResult) : Json :=
  .jobj [("cardCounts", encodeNatMap r.CardCounts),
         ("oroCardCounts", encodeNatMap r.OroCardCounts),
         ("hasSieteDeOro", encodeBoolMap r.HasSieteDeOro),
         ("setentaScores", encodeIntMap r.SetentaScores),
         ("pointsAwarded", encodeNatMap r.PointsAwarded),
         ("escobasThisSet", encodeNatMap r.EscobasThisSet)]

def decodeSetResult (j : Json) : Except String SetResult :=
  match j with
  | .jobj [("cardCounts", j1), ("oroCardCounts", j2), ("hasSieteDeOro", j3),
           ("setentaScores", j4), ("pointsAwarded", j5), ("escobasThisSet", j6)] => do
      let m1 ← decodeNatMap j1
      let m2 ← decodeNatMap j2
      let m3 ← decodeBoolMap j3
      let m4 ← decodeIntMap j4
      let m5 ← decodeNatMap j5
      let m6 ← decodeNatMap j6
      .ok ⟨m1, m2, m3, m4, m5, m6⟩
  | _ => .error "bad set result"

/-- GameState marshals its exported fields in struct order under their
json tags; deck is tagged "-" and omitted (part_003). -/
def encodeGameState (g : GameState) : Json :=
  .jobj [("roundTurnPlayerID", encodeFin g.RoundTurnPlayerID),
         ("roundNumber", .jnum (g.RoundNumber : Int)),
         ("turnPlayerID", encodeFin g.TurnPlayerID),
         ("hands", encodeHands g.Hands),
         ("tableCards", .jarr (g.TableCards.map encodeCard)),
         ("piles", encodeCardsMap g.Piles),
         ("escobas", encodeNatMap g.Escobas),
         ("scores", encodeNatMap g.Scores),
         ("possibleActions", .jarr g.PossibleActions),
         ("roundFinished", .jbool g.RoundFinished),
         ("setFinished", .jbool g.SetFinished),
         ("isEnded", .jbool g.IsEnded),
         ("winnerPlayerID", .jnum g.WinnerPlayerID),
         ("actions", .jarr g.Actions),
         ("actionOwnerPlayerIDs", encodeFinList g.ActionOwnerPlayerIDs),
         ("roundJustStarted", .jbool g.RoundJustStarted),
         ("lastSetResults", match g.LastSetResults with
            | none => .jnull
            | some r => encodeSetResult r),
         ("lastCapturerPlayerID", encodeFin g.LastCapturerPlayerID),
         ("setJustStarted", .jbool g.SetJustStarted)]

def decodeOptSetResult (j : Json) : Except String (Option SetResult) :=
  match j with
  | .jnull => .ok none
  | _ => do
      let r ← decodeSetResult j
      .ok (some r)

/-- Decoder for a snapshot in the canonical shape the marshaller emits
(Go's decoder also accepts permuted keys; round-tripping exercises only
the canonical shape).  The unexported deck field comes back empty. -/
def decodeGameState (j : Json) : Except String GameState :=
  match j with
  | .jobj [("roundTurnPlayerID", j1), ("roundNumber", j2), ("turnPlayerID", j3),
           ("hands", j4), ("tableCards", .jarr j5), ("piles", j6),
           ("escobas", j7), ("scores", j8), ("possibleActions", .jarr j9),
           ("roundFinished", j10), ("setFinished", j11), ("isEnded", j12),
           ("winnerPlayerID", j13), ("actions", .jarr j14),
           ("actionOwnerPlayerIDs", .jarr j15), ("roundJustStarted", j16),
           ("lastSetResults", j17), ("lastCapturerPlayerID", j18),
           ("setJustStarted", j19)] => do
      let rtp ← decodeFin j1
      let rn ← decodeNat j2
      let tp ← decodeFin j3
      let hands ← decodeHands j4
      let table ← decodeCardList j5
      let piles ← decodeCardsMap j6
      let escobas ← decodeNatMap j7
      let scores ← decodeNatMap j8
      let rf ← decodeBool j10
      let sf ← decodeBool j11
      let ie ← decodeBool j12
      let w ← decodeInt j13
      let owners ← decodeFinList j15
      let rjs ← decodeBool j16
      let lsr ← decodeOptSetResult j17
      let lc ← decodeFin j18
      let sjs ← decodeBool j19
      .ok ⟨rtp, rn, tp, hands, table, piles, escobas, scores, j9, rf, sf, ie,
           w, j14, owners, rjs, lsr, lc, sjs, []⟩
  | _ => .error "bad game state"

-- ROUND-TRIP LEMMAS

theorem decodeCard_encodeCard (c : Card) : decodeCard (encodeCard c) = .ok c :=
  rfl

theorem decodeCardList_map (l : List Card) :
    decodeCardList (l.map encodeCard) = .ok l := by
  induction l with
  | nil => rfl
  | cons c rest ih =>
      simp only [List.map_cons]
      unfold decodeCardList
      rw [decodeCard_encodeCard, ih]
      rfl

theorem decodeFin_encodeFin (i : Fin 2) : decodeFin (encodeFin i) = .ok i := by
  rcases fin2_eq_zero_or_one i with h | h <;> subst h <;> rfl

theorem decodeNat_coe (n : Nat) : decodeNat (.jnum (n : Int)) = .ok n := by
  have step : decodeNat (Json.jnum (n : Int)) = .ok ((n : Int)).toNat := rfl
  rw [step]
  simp

theorem decodeHands_encodeHands (h : Fin 2 → List Card) :
    decodeHands (encodeHands h) = .ok h := by
  have step : decodeHands (encodeHands h) =
      (do
        let h0 ← decodeCardList ((h 0).map encodeCard)
        let h1 ← decodeCardList ((h 1).map encodeCard)
        Except.ok (mkFin2 h0 h1)) := rfl
  rw [step, decodeCardList_map, decodeCardList_map]
  show Except.ok (mkFin2 (h 0) (h 1)) = Except.ok h
  rw [mkFin2_eta]

theorem decodeCardsMap_encodeCardsMap (p : Fin 2 → List Card) :
    decodeCardsMap (encodeCardsMap p) = .ok p := by
  have step : decodeCardsMap (encodeCardsMap p) =
      (do
        let p0 ← decodeCardList ((p 0).map encodeCard)
        let p1 ← decodeCardList ((p 1).map encodeCard)
        Except.ok (mkFin2 p0 p1)) := rfl
  rw [step, decodeCardList_map, decodeCardList_map]
  show Except.ok (mkFin2 (p 0) (p 1)) = Except.ok p
  rw [mkFin2_eta]

theorem decodeNatMap_encodeNatMap (m : Fin 2 → Nat) :
    decodeNatMap (encodeNatMap m) = .ok m := by
  have step : decodeNatMap (encodeNatMap m) =
      (do
        let n0 ← decodeNat (.jnum (m 0 : Int))
        let n1 ← decodeNat (.jnum (m 1 : Int))
        Except.ok (mkFin2 n0 n1)) := rfl
  rw [step, decodeNat_coe, decodeNat_coe]
  show Except.ok (mkFin2 (m 0) (m 1)) = Except.ok m
  rw [mkFin2_eta]

theorem decodeIntMap_encodeIntMap (m : Fin 2 → Int) :
    decodeIntMap (encodeIntMap m) = .ok m := by
  have step : decodeIntMap (encodeIntMap m) = .ok (mkFin2 (m 0) (m 1)) := rfl
  rw [step, mkFin2_eta]

theorem decodeBoolMap_encodeBoolMap (m : Fin 2 → Bool) :
    decodeBoolMap (encodeBoolMap m) = .ok m := by
  have step : decodeBoolMap (encodeBoolMap m) = .ok (mkFin2 (m 0) (m 1)) := rfl
  rw [step, mkFin2_eta]

theorem decodeFinList_map (l : List (Fin 2)) :
    decodeFinList (l.map encodeFin) = .ok l := by
  induction l with
  | nil => rfl
  | cons i rest ih =>
      simp only [List.map_cons]
      unfold decodeFinList
      rw [decodeFin_encodeFin, ih]
      rfl

theorem decodeSetResult_encodeSetResult (r : SetResult) :
    decodeSetResult (encodeSetResult r) = .ok r := by
  have step : decodeSetResult (encodeSetResult r) =
      (do
        let m1 ← decodeNatMap (encodeNatMap r.CardCounts)
        let m2 ← decodeNatMap (encodeNatMap r.OroCardCounts)
        let m3 ← decodeBoolMap (encodeBoolMap r.HasSieteDeOro)
        let m4 ← decodeIntMap (encodeIntMap r.SetentaScores)
        let m5 ← decodeNatMap (encodeNatMap r.PointsAwarded)
        let m6 ← decodeNatMap (encodeNatMap r.EscobasThisSet)
        Except.ok (SetResult.mk m1 m2 m3 m4 m5 m6)) := rfl
  rw [step, decodeNatMap_encodeNatMap, decodeNatMap_encodeNatMap,
      decodeBoolMap_encodeBoolMap, decodeIntMap_encodeIntMap,
      decodeNatMap_encodeNatMap, decodeNatMap_encodeNatMap]
  rfl

theorem decodeOptSetResult_roundtrip (o : Option SetResult) :
    decodeOptSetResult (match o with
      | none => Json.jnull
      | some r => encodeSetResult r) = .ok o := by
  cases o with
  | none => rfl
  | some r =>
      have step : decodeOptSetResult (encodeSetResult r) =
          (do
            let r2 ← decodeSetResult (encodeSetResult r)
            Except.ok (some r2)) := rfl
      show decodeOptSetResult (encodeSetResult r) = .ok (some r)
      rw [step, decodeSetResult_encodeSetResult]
      rfl

theorem decodeGameState_encodeGameState (g : GameState) :
    decodeGameState (encodeGameState g) = .ok { g with deck := [] } := by
  have step : decodeGameState (encodeGameState g) =
      (do
        let rtp ← decodeFin (encodeFin g.RoundTurnPlayerID)
        let rn ← decodeNat (.jnum (g.RoundNumber : Int))
        let tp ← decodeFin (encodeFin g.TurnPlayerID)
        let hands ← decodeHands (encodeHands g.Hands)
        let table ← decodeCardList (g.TableCards.map encodeCard)
        let piles ← decodeCardsMap (encodeCardsMap g.Piles)
        let escobas ← decodeNatMap (encodeNatMap g.Escobas)
        let scores ← decodeNatMap (encodeNatMap g.Scores)
        let rf ← decodeBool (.jbool g.RoundFinished)
        let sf ← decodeBool (.jbool g.SetFinished)
        let ie ← decodeBool (.jbool g.IsEnded)
        let w ← decodeInt (.jnum g.WinnerPlayerID)
        let owners ← decodeFinList (g.ActionOwnerPlayerIDs.map encodeFin)
        let rjs ← decodeBool (.jbool g.RoundJustStarted)
        let lsr ← decodeOptSetResult (match g.LastSetResults with
          | none => Json.jnull
          | some r => encodeSetResult r)
        let lc ← decodeFin (encodeFin g.LastCapturerPlayerID)
        let sjs ← decodeBool (.jbool g.SetJustStarted)
        Except.ok (GameState.mk rtp rn tp hands table piles escobas scores
          g.PossibleActions rf sf ie w g.Actions owners rjs lsr lc sjs [])) :=
    rfl
  rw [step, decodeFin_encodeFin, decodeNat_coe, decodeFin_encodeFin,
      decodeHands_encodeHands, decodeCardList_map, decodeCardsMap_encodeCardsMap,
      decodeNatMap_encodeNatMap, decodeNatMap_encodeNatMap, decodeFinList_map,
      decodeOptSetResult_roundtrip, decodeFin_encodeFin]
  rfl

theorem DeserializeAction_SerializeAction (a : ActionThrowCard)
    (h : a.Name = THROW_CARD) :
    DeserializeAction (SerializeAction a) = .ok a := by
  obtain ⟨n, c, cs⟩ := a
  have hn : n = THROW_CARD := h
  subst hn
  have step : DeserializeAction (SerializeAction
      (ActionThrowCard.mk THROW_CARD c cs)) =
      (do
        let c2 ← decodeCard (encodeCard c)
        let cs2 ← decodeCardList (cs.map encodeCard)
        Except.ok (ActionThrowCard.mk THROW_CARD c2 cs2)) := rfl
  rw [step, decodeCard_encodeCard, decodeCardList_map]
  rfl

theorem erase_deck_eq (g : GameState) (hg : g.deck = []) :
    { g with deck := [] } = g := by
  obtain ⟨a1, a2, a3, a4, a5, a6, a7, a8, a9, a10,
          a11, a12, a13, a14, a15, a16, a17, a18, a19, a20⟩ := g
  have h20 : a20 = [] := hg
  subst h20
  rfl

/-- C9 counterexample: the undealt deck is excluded from the wire format
(its Go field carries the json tag "-"), so serializing the freshly
constructed game (30 undealt cards) and deserializing does not return a
state equal to the original: the deck comes back empty. -/
theorem c9_counterexample :
    decodeGameState (encodeGameState (New makeSpanishCards)) ≠
      Except.ok (New makeSpanishCards) := by
  rw [decodeGameState_encodeGameState]
  intro h
  have h2 := congrArg GameState.deck (Except.ok.inj h)
  have h3 : (0 : Nat) = (New makeSpanishCards).deck.length :=
    congrArg List.length h2
  exact absurd h3.symm (by decide)

/-- C9: serialization round-trips.  Any Card decodes back to itself; any
action whose name is the throw-card discriminator deserializes back to
itself (same thrown card and same captured subset); any GameState decodes
back to the original with the private undealt deck emptied, hence to a
value equal to the original exactly on the serialized fields, and fully
equal whenever the deck is empty. -/
theorem c9_serialization_spec :
    (∀ c : Card, decodeCard (encodeCard c) = .ok c) ∧
    (∀ a : ActionThrowCard, a.Name = THROW_CARD →
        DeserializeAction (SerializeAction a) = .ok a) ∧
    (∀ g : GameState,
        decodeGameState (encodeGameState g) = .ok { g with deck := [] }) ∧
    (∀ g : GameState, g.deck = [] →
        decodeGameState (encodeGameState g) = .ok g) := by
  refine ⟨decodeCard_encodeCard, DeserializeAction_SerializeAction,
    decodeGameState_encodeGameState, ?_⟩
  intro g hg
  rw [decodeGameState_encodeGameState, erase_deck_eq g hg]

/-- Sample action for the C9 witness: a throw of the 7 of oro capturing
two table cards. -/
def c9SampleAction : ActionThrowCard :=
  ActionThrowCard.mk THROW_CARD (Card.mk ORO 7) [Card.mk COPA 3, Card.mk ESPADA 5]

/-- Sample state for the C9 witness: the fresh game with its undealt deck
removed, so the round-trip is exact. -/
def c9SampleState : GameState := { New makeSpanishCards with deck := [] }

/-- Witness for C9 at concrete inputs. -/
theorem c9_serialization_spec_witness :
    c9SampleAction.Name = THROW_CARD ∧
    DeserializeAction (SerializeAction c9SampleAction) = .ok c9SampleAction ∧
    c9SampleState.deck = [] ∧
    decodeGameState (encodeGameState c9SampleState) = .ok c9SampleState :=
  ⟨rfl, c9_serialization_spec.2.1 c9SampleAction rfl, rfl,
    c9_serialization_spec.2.2.2 c9SampleState rfl⟩

end Escoba
